import Mathlib

/-!
# Verification of the PowerDNS zone-manager reconciliation engine

Shallow embedding of `internal/config/config.go`, `internal/powerdns/types.go`
and `internal/manager/manager.go` from `kreigan/powerdns-zone-manager`.

Go maps are modelled as association lists (`List (String × α)`) with
last-write-wins upsert and zero-value defaulting on lookup; Go's
`for k, v := range m` is modelled as iteration in insertion order.
Go errors are an inductive `Err` type (with `Err.wrap` for `fmt.Errorf`
with `%w`, and a distinguished `Err.aborted` for `ErrAborted`).
The `PowerDNSClient` interface is a record of three functions over an
abstract mutable-state type, mirroring its three methods.
-/

namespace ZoneManager

set_option autoImplicit false

/-- Model of Go `strings.ToUpper` (the repository only upper-cases ASCII
record types), via the character list of the string. -/
def strUpper (s : String) : String := ⟨s.data.map Char.toUpper⟩

/-- Model of Go `strings.ToLower` (applied to ASCII DNS names), via the
character list of the string. -/
def strLower (s : String) : String := ⟨s.data.map Char.toLower⟩

/-- Model of Go `strings.HasPrefix`, via the character list of the string. -/
def strStarts (s pre : String) : Bool := pre.data.isPrefixOf s.data

/-- Model of Go `strings.HasSuffix`, via the character list of the string. -/
def strEnds (s suf : String) : Bool := suf.data.isSuffixOf s.data

/-- First-match lookup in an association list (Go map read). -/
def alistFind? {α : Type} : List (String × α) → String → Option α
  | [], _ => none
  | (k, v) :: rest, key => if k == key then some v else alistFind? rest key

/-- Last-write-wins insert in an association list (Go map write). -/
def alistUpsert {α : Type} : List (String × α) → String → α → List (String × α)
  | [], key, v => [(key, v)]
  | (k, w) :: rest, key, v =>
    if k == key then (key, v) :: rest else (k, w) :: alistUpsert rest key v

/-! ## `internal/powerdns/types.go` -/

namespace PowerDNS

/-- `powerdns.Record`. -/
structure Record where
  content : String
  disabled : Bool
deriving DecidableEq, Repr

/-- `powerdns.Comment`. -/
structure Comment where
  content : String
  account : String
deriving DecidableEq, Repr

/-- `powerdns.RRset` (`Type` is spelled `typ`: `type` is reserved in Lean). -/
structure RRset where
  name : String
  typ : String
  changeType : String
  records : List Record
  comments : List Comment
  ttl : Nat
deriving DecidableEq, Repr

/-- `powerdns.Zone` (fields the manager never reads are omitted). -/
structure Zone where
  name : String
  kind : String
  account : String
  nameservers : List String
  rrsets : List RRset
deriving DecidableEq, Repr

/-- `powerdns.ZonePatch`. -/
structure ZonePatch where
  rrsets : List RRset
deriving DecidableEq, Repr

end PowerDNS

/-! ## Error model

Go errors as values: `msg` is a plain `errors.New`/`fmt.Errorf` message,
`wrap` is `fmt.Errorf("...: %w", err)`, `aborted` is the distinguished
sentinel `ErrAborted`, `validationFailed` is a `*config.ValidationError`.
-/

/-- Validation violations (`config.ValidationError.Errors`), one constructor
per distinct `errs.Add` call site in `config.go`, carrying the same data
that Go formats into the message. -/
inductive VErr where
  | nsRequired (zone : String)
  | zoneNotManaged (zone : String)
  | emptyNameserver (zone : String) (i : Nat)
  | invalidKind (zone kind : String)
  | nsInRRsets (zone : String) (i : Nat)
  | soaInRRsets (zone : String) (i : Nat)
  | nameRequired (zone : String) (i : Nat)
  | typeRequired (zone : String) (i : Nat)
  | duplicateRRset (zone : String) (i : Nat)
  | badRecords (zone : String) (i : Nat) (msg : String)
  | noRecords (zone : String) (i : Nat)
  | emptyContent (zone : String) (i j : Nat)
deriving DecidableEq, Repr

-- Decidable equality for `Except` results (used to state and check concrete runs).
deriving instance DecidableEq for Except

/-- Go `error` values as they appear in the manager and config packages. -/
inductive Err where
  | aborted
  | msg (s : String)
  | wrap (ctx : String) (e : Err)
  | validationFailed (errs : List VErr)
deriving DecidableEq, Repr

/-- `manager.ErrAborted`. -/
def ErrAborted : Err := Err.aborted

/-! ## `internal/config/config.go` -/

namespace Config

/-- A YAML scalar as inspected by `config.parseRecordMap`: the code only
ever asks "is it a string?" or "is it a boolean?", so every other value
(numbers, nested lists/maps, nil) collapses to `other`, which triggers the
same error branch it would in Go. -/
inductive YScalar where
  | str (s : String)
  | bool (b : Bool)
  | other
deriving DecidableEq, Repr

/-- An element of a YAML record list as inspected by
`config.normalizeRecordsList`: a string, a string-keyed map of scalars, or
anything else (`other`, hitting the `default:` error branch exactly as any
unsupported Go value would). -/
inductive YItem where
  | str (s : String)
  | map (entries : List (String × YScalar))
  | other
deriving DecidableEq, Repr

/-- `RRsetInput.Records` (Go `interface{}` after `yaml.Unmarshal`) as
inspected by `config.normalizeRecords`: a bare string, a list, a single
map, or anything else (`other`, the `default:` error branch). The Go code
never looks deeper than these shapes without erroring, so this bounded
model is observationally equivalent. -/
inductive YVal where
  | str (s : String)
  | list (items : List YItem)
  | map (entries : List (String × YScalar))
  | other
deriving DecidableEq, Repr

/-- `config.RRsetInput` (`Records interface{}` is `Option YVal`, `none`
being Go `nil`). -/
structure RRsetInput where
  name : String
  typ : String
  records : Option YVal
  ttl : Option Nat
  comment : String
deriving DecidableEq, Repr

/-- `config.Record` (normalized). -/
structure Record where
  content : String
  comment : String
  disabled : Bool
deriving DecidableEq, Repr

/-- `config.RRset` (normalized). -/
structure RRset where
  name : String
  typ : String
  comment : String
  records : List Record
  ttl : Nat
deriving DecidableEq, Repr

/-- `config.Zone`. -/
structure Zone where
  kind : String
  nameservers : List String
  rrsets : List RRsetInput
deriving DecidableEq, Repr

/-- `config.ZoneState`. -/
structure ZoneState where
  exists_ : Bool
  isManaged : Bool
deriving DecidableEq, Repr

/-- Reading `existingZones[canonicalName]` from a Go map yields the zero
value when absent. -/
def lookupState (ez : List (String × ZoneState)) (key : String) : ZoneState :=
  (alistFind? ez key).getD ⟨false, false⟩

/-- `config.CanonicalZoneName`. -/
def CanonicalZoneName (name : String) : String :=
  if strEnds name "." then name else name ++ "."

/-- `config.parseRecordMap`. -/
def parseRecordMap (m : List (String × YScalar)) : Except Err Record := do
  let mut content := ""
  let mut disabled := false
  let mut comment := ""
  match alistFind? m "content" with
  | some (.str s) => content := s
  | some _ => throw (.msg "content must be a string")
  | none => pure ()
  match alistFind? m "disabled" with
  | some (.bool b) => disabled := b
  | some _ => throw (.msg "disabled must be a boolean")
  | none => pure ()
  match alistFind? m "comment" with
  | some (.str s) => comment := s
  | some _ => throw (.msg "comment must be a string")
  | none => pure ()
  return ⟨content, comment, disabled⟩

/-- `config.normalizeRecordsList`; the index `i` tracks Go's loop index for
error messages. -/
def normalizeRecordsList (i : Nat) : List YItem → Except Err (List Record)
  | [] => .ok []
  | item :: rest =>
    match item with
    | .str s => do
      let tail ← normalizeRecordsList (i + 1) rest
      return ⟨s, "", false⟩ :: tail
    | .map m => do
      match parseRecordMap m with
      | .error e => throw (.wrap ("record " ++ toString i) e)
      | .ok rec => do
        let tail ← normalizeRecordsList (i + 1) rest
        return rec :: tail
    | .other => throw (.msg ("record " ++ toString i ++ ": unsupported type"))

/-- `config.normalizeRecords`. -/
def normalizeRecords : Option YVal → Except Err (List Record)
  | none => .ok []
  | some (.str s) => .ok [⟨s, "", false⟩]
  | some (.list items) => normalizeRecordsList 0 items
  | some (.map m) => do
    let rec ← parseRecordMap m
    return [rec]
  | some .other => throw (.msg "unsupported records type")

/-- `config.Zone.NormalizeZone` (Go mutates in place; modelled functionally). -/
def Zone.NormalizeZone (z : Zone) : Zone :=
  if z.kind == "" then { z with kind := "Native" } else z

/-- `config.Zone.NormalizeRRsets`. -/
def Zone.NormalizeRRsets (z : Zone) : Except Err (List RRset) :=
  go z.rrsets
where
  /-- The loop body of `NormalizeRRsets`. -/
  go : List RRsetInput → Except Err (List RRset)
    | [] => .ok []
    | input :: rest => do
      match normalizeRecords input.records with
      | .error e => throw (.wrap ("rrset " ++ input.name ++ "/" ++ input.typ) e)
      | .ok records => do
        let tail ← go rest
        return ⟨input.name, strUpper input.typ, input.comment, records,
                input.ttl.getD 300⟩ :: tail

end Config

/-- `config.Config` (`Zones` is a Go map; modelled as an association list
in iteration order). -/
structure Config where
  zones : List (String × Config.Zone)
deriving DecidableEq, Repr

namespace Config

/-- The rrset-key expression used for the duplicate check in
`config.validateRRsets` (same formula as `manager.rrsetKey`). -/
def dupKey (name typ : String) : String :=
  strLower name ++ "/" ++ strUpper typ

/-- The body of the loop in `config.validateRRsets`, threading the
`seenRRsets` set; `i` is the loop index. -/
def validateRRsetsGo (zoneName : String) : List RRsetInput → Nat → List String → List VErr
  | [], _, _ => []
  | rrset :: rest, i, seen =>
    -- NS and SOA are rejected up front and skip the rest of the body
    -- (`strings.EqualFold(t, "NS")` is `t.toUpper == "NS"` for ASCII).
    if strUpper rrset.typ == "NS" then
      VErr.nsInRRsets zoneName i :: validateRRsetsGo zoneName rest (i + 1) seen
    else if strUpper rrset.typ == "SOA" then
      VErr.soaInRRsets zoneName i :: validateRRsetsGo zoneName rest (i + 1) seen
    else
      let nameErrs := if rrset.name == "" then [VErr.nameRequired zoneName i] else []
      let typeErrs := if rrset.typ == "" then [VErr.typeRequired zoneName i] else []
      let key := dupKey rrset.name rrset.typ
      let dupErrs := if seen.contains key then [VErr.duplicateRRset zoneName i] else []
      let seen := key :: seen
      let recErrs :=
        match normalizeRecords rrset.records with
        | .error _ => [VErr.badRecords zoneName i "records error"]
        | .ok records =>
          (if records.length == 0 then [VErr.noRecords zoneName i] else []) ++
          (records.enum.filterMap fun rj =>
            if rj.2.content == "" then some (VErr.emptyContent zoneName i rj.1) else none)
      nameErrs ++ typeErrs ++ dupErrs ++ recErrs ++
        validateRRsetsGo zoneName rest (i + 1) seen

/-- `config.validateRRsets`. -/
def validateRRsets (zoneName : String) (rrsets : List RRsetInput) : List VErr :=
  validateRRsetsGo zoneName rrsets 0 []

/-- The valid zone kinds checked in `config.validateZone`. -/
def validKinds : List String := ["Native", "Master", "Slave", "Producer", "Consumer"]

/-- `config.validateZone`: the violations appended for one zone entry. -/
def validateZone (zoneName : String) (zone : Zone)
    (existingZones : List (String × ZoneState)) : List VErr :=
  let state := lookupState existingZones (CanonicalZoneName zoneName)
  (if !state.exists_ && zone.nameservers.length == 0 then
    [VErr.nsRequired zoneName] else []) ++
  (if state.exists_ && !state.isManaged then
    [VErr.zoneNotManaged zoneName] else []) ++
  (zone.nameservers.enum.filterMap fun nsi =>
    if nsi.2 == "" then some (VErr.emptyNameserver zoneName nsi.1) else none) ++
  (if zone.kind != "" && !(validKinds.contains zone.kind) then
    [VErr.invalidKind zoneName zone.kind] else []) ++
  validateRRsets zoneName zone.rrsets

end Config

/-- `config.Config.Validate`: all violations of all zones, in order; Go
returns `nil` exactly when this list is empty. -/
def Config.Validate (c : Config) (existingZones : List (String × Config.ZoneState)) :
    List VErr :=
  c.zones.foldr (fun p acc => Config.validateZone p.1 p.2 existingZones ++ acc) []

/-! ## `internal/manager/manager.go` -/

/-- `manager.ApplyOptions`. -/
structure ApplyOptions where
  dryRun : Bool
  autoConfirm : Bool
deriving DecidableEq, Repr

/-- `manager.ApplyResult`. -/
structure ApplyResult where
  errors : List Err
  zonesCreated : Nat
  rrsetsCreated : Nat
  rrsetsUpdated : Nat
  rrsetsDeleted : Nat
deriving DecidableEq, Repr

/-- `manager.Manager` (the client is passed explicitly; the logger is
dropped). -/
structure Manager where
  accountName : String
  confirmFn : Option (String → Bool)

/-- `manager.PowerDNSClient`: the three methods, over an abstract client
state `σ` threaded explicitly. `getZone` is a read (no state change);
`createZone` and `patchZone` may change the state. A `GetZone` 404 is
`.ok none`. -/
structure Client (σ : Type) where
  getZone : σ → String → Except Err (Option PowerDNS.Zone)
  createZone : σ → PowerDNS.Zone → Except Err (PowerDNS.Zone × σ)
  patchZone : σ → String → PowerDNS.ZonePatch → Except Err σ

/-- `manager.rrsetKey`. -/
def rrsetKey (name recordType : String) : String :=
  strLower name ++ "/" ++ strUpper recordType

/-- `manager.Manager.isManaged`: at least one comment with our account. -/
def Manager.isManaged (m : Manager) (rrset : PowerDNS.RRset) : Bool :=
  rrset.comments.any fun comment => comment.account == m.accountName

/-- The `fmt.Sprintf("%s|%t", r.Content, r.Disabled)` sort key from
`shouldUpdateRRset`. -/
def recordSortKey (r : PowerDNS.Record) : String :=
  r.content ++ "|" ++ (if r.disabled then "true" else "false")

/-- Model of Go `sort.Strings`: any correct ascending sort produces the
unique sorted permutation of the input, so insertion sort (over the
lexicographic character order) is an exact model; `shouldUpdateRRset` only
ever compares the two sorted lists for equality, which is invariant under
the choice of total order. -/
def sortStrings (l : List String) : List String :=
  List.insertionSort (fun a b => a.data ≤ b.data) l

instance : IsTotal String (fun a b => a.data ≤ b.data) :=
  ⟨fun a b => le_total a.data b.data⟩

instance : IsTrans String (fun a b => a.data ≤ b.data) :=
  ⟨fun _ _ _ h1 h2 => le_trans h1 h2⟩

instance : IsAntisymm String (fun a b => a.data ≤ b.data) :=
  ⟨fun a b h1 h2 => by
    cases a; cases b; exact congrArg String.mk (le_antisymm h1 h2)⟩

/-- `manager.Manager.shouldUpdateRRset`. (Go compares the two sorted slices
element by element; with equal lengths that is list equality.) -/
def Manager.shouldUpdateRRset (_ : Manager) (desired existing : PowerDNS.RRset) : Bool :=
  if desired.ttl != existing.ttl then true
  else if desired.records.length != existing.records.length then true
  else
    sortStrings (desired.records.map recordSortKey) !=
      sortStrings (existing.records.map recordSortKey)

/-- `manager.Manager.buildFQDN`. -/
def Manager.buildFQDN (_ : Manager) (name zoneID : String) : String :=
  if name == "@" then zoneID
  else if strEnds name "." then name
  else name ++ "." ++ zoneID

/-- `manager.Manager.normalizeNameserver`. -/
def Manager.normalizeNameserver (_ : Manager) (ns zoneID : String) : String :=
  if strEnds ns "." then ns else ns ++ "." ++ zoneID

/-- `manager.Manager.normalizeNameservers`. -/
def Manager.normalizeNameservers (m : Manager) (nameservers : List String)
    (zoneID : String) : List String :=
  nameservers.map fun ns => m.normalizeNameserver ns zoneID

/-- One character of Go's `strconv.Quote` output (used via
`fmt.Sprintf("%q", content)`): backslash-escapes `"` and `\` and the
common control characters, keeps printable ASCII, and (simplification of
the exotic `\xNN`/`\uNNNN` escapes, which no claim exercises) marks other
characters with a lone `\x`. Everything the repository feeds through `%q`
is printable ASCII. -/
def goQuoteChar (c : Char) : List Char :=
  if c = '"' then ['\\', '"']
  else if c = '\\' then ['\\', '\\']
  else if c = '\n' then ['\\', 'n']
  else if c = '\t' then ['\\', 't']
  else if c = '\r' then ['\\', 'r']
  else if c.toNat < 0x20 then ['\\', 'x']
  else [c]

/-- The escaped body of `strconv.Quote`. -/
def goQuoteData : List Char → List Char
  | [] => []
  | c :: rest => goQuoteChar c ++ goQuoteData rest

/-- Model of Go `fmt.Sprintf("%q", s)` (`strconv.Quote`): the escaped body
wrapped in double quotes. -/
def goQuote (s : String) : String :=
  ⟨'"' :: (goQuoteData s.data ++ ['"'])⟩

/-- The TXT-normalization applied to one record content in
`buildDesiredRRsets`: quote unless it already starts with `"`. -/
def txtNormalizeContent (typ content : String) : String :=
  if typ == "TXT" && !strStarts content "\"" then goQuote content else content

/-- `manager.Manager.createRRsetPatch`. -/
def Manager.createRRsetPatch (m : Manager) (desired : PowerDNS.RRset) : PowerDNS.RRset :=
  { name := desired.name, typ := desired.typ, ttl := desired.ttl,
    changeType := "REPLACE", records := desired.records,
    comments := [⟨"Managed by zone-manager", m.accountName⟩] }

/-- The NS record set synthesized from the `nameservers` property in
`buildDesiredRRsets` (TTL 300, each nameserver FQDN-completed). -/
def nsDesiredRRset (m : Manager) (zoneID : String) (cfg : Config.Zone) : PowerDNS.RRset :=
  { name := zoneID, typ := "NS", changeType := "",
    records := cfg.nameservers.map fun ns => ⟨m.normalizeNameserver ns zoneID, false⟩,
    comments := [], ttl := 300 }

/-- The desired record set built from one normalized configuration record
set in `buildDesiredRRsets`: FQDN completion plus TXT content quoting. -/
def desiredRRsetOf (m : Manager) (zoneID : String) (rrset : Config.RRset) : PowerDNS.RRset :=
  { name := m.buildFQDN rrset.name zoneID, typ := rrset.typ, changeType := "",
    records := rrset.records.map fun rec =>
      ⟨txtNormalizeContent rrset.typ rec.content, rec.disabled⟩,
    comments := [], ttl := rrset.ttl }

/-- `manager.Manager.buildDesiredRRsets`. The desired map is an association
list; the NS record set (if any) is inserted first, then the configured
record sets in order, later keys overwriting earlier ones as in Go. -/
def Manager.buildDesiredRRsets (m : Manager) (zoneID : String) (cfg : Config.Zone)
    (state : Config.ZoneState) : Except Err (List (String × PowerDNS.RRset)) := do
  let desired0 : List (String × PowerDNS.RRset) :=
    if cfg.nameservers.length > 0 then
      if state.isManaged || !state.exists_ then
        [(rrsetKey zoneID "NS", nsDesiredRRset m zoneID cfg)]
      else []  -- zone exists but is not managed: nameservers skipped with a warning
    else []
  let rrsets ← cfg.NormalizeRRsets
  return rrsets.foldl (fun acc rrset =>
    alistUpsert acc (rrsetKey (m.buildFQDN rrset.name zoneID) rrset.typ)
      (desiredRRsetOf m zoneID rrset)) desired0

/-- The `existingByKey` index built at the top of `applyRRsets`. -/
def buildKeyMap (rrsets : List PowerDNS.RRset) : List (String × PowerDNS.RRset) :=
  rrsets.foldl (fun acc rrset => alistUpsert acc (rrsetKey rrset.name rrset.typ) rrset) []

/-- The first classification loop of `applyRRsets` (over the desired map):
returns the patch entries it appends together with the number of created
and updated record sets it counts. -/
def Manager.diffDesired (m : Manager) (existingByKey : List (String × PowerDNS.RRset)) :
    List (String × PowerDNS.RRset) → List PowerDNS.RRset × Nat × Nat
  | [] => ([], 0, 0)
  | (key, desired) :: rest =>
    let (patch, created, updated) := m.diffDesired existingByKey rest
    match alistFind? existingByKey key with
    | none => (m.createRRsetPatch desired :: patch, created + 1, updated)
    | some existing =>
      if m.isManaged existing then
        if m.shouldUpdateRRset desired existing then
          (m.createRRsetPatch desired :: patch, created, updated + 1)
        else (patch, created, updated)
      else (patch, created, updated)

/-- The orphan-deletion loop of `applyRRsets` (over the existing map):
returns the `DELETE` patch entries and the number of deletions counted. -/
def Manager.diffOrphans (m : Manager) (desiredRRsets : List (String × PowerDNS.RRset)) :
    List (String × PowerDNS.RRset) → List PowerDNS.RRset × Nat
  | [] => ([], 0)
  | (key, existing) :: rest =>
    let (patch, deleted) := m.diffOrphans desiredRRsets rest
    if m.isManaged existing then
      if alistFind? desiredRRsets key matches none then
        ({ name := existing.name, typ := existing.typ, changeType := "DELETE",
           records := [], comments := [], ttl := 0 } :: patch, deleted + 1)
      else (patch, deleted)
    else (patch, deleted)

/-- `manager.Manager.sendPatch`. -/
def Manager.sendPatch {σ : Type} (m : Manager) (client : Client σ) (s : σ)
    (zoneID : String) (patchRRsets : List PowerDNS.RRset) (opts : ApplyOptions) :
    Except Err σ :=
  if patchRRsets.length == 0 then .ok s
  else if opts.dryRun then .ok s
  else
    let declined :=
      !opts.autoConfirm &&
        (match m.confirmFn with
         | some confirm => !confirm "Apply these changes?"
         | none => false)
    if declined then .error ErrAborted
    else
      match client.patchZone s zoneID ⟨patchRRsets⟩ with
      | .error e => .error (.wrap "failed to patch zone" e)
      | .ok s' => .ok s'

/-- `manager.Manager.applyRRsets`. Returns the Go return value, the updated
`result` (mutated through the pointer even on error), and the client state. -/
def Manager.applyRRsets {σ : Type} (m : Manager) (client : Client σ) (s : σ)
    (zoneID : String) (cfg : Config.Zone) (existingZone : PowerDNS.Zone)
    (state : Config.ZoneState) (opts : ApplyOptions) (result : ApplyResult) :
    Except Err Unit × ApplyResult × σ :=
  match m.buildDesiredRRsets zoneID cfg state with
  | .error e => (.error e, result, s)
  | .ok desiredRRsets =>
    let existingByKey := buildKeyMap existingZone.rrsets
    let (patch1, created, updated) := m.diffDesired existingByKey desiredRRsets
    let (patch2, deleted) := m.diffOrphans desiredRRsets existingByKey
    let result := { result with
      rrsetsCreated := result.rrsetsCreated + created,
      rrsetsUpdated := result.rrsetsUpdated + updated,
      rrsetsDeleted := result.rrsetsDeleted + deleted }
    match m.sendPatch client s zoneID (patch1 ++ patch2) opts with
    | .error e => (.error e, result, s)
    | .ok s' => (.ok (), result, s')

/-- `manager.Manager.applyZone`. `existingZone` is the `zoneData` entry
(`none` models a nil pointer, only dereferenced when `state.exists_`). -/
def Manager.applyZone {σ : Type} (m : Manager) (client : Client σ) (s : σ)
    (zoneID : String) (zoneConfig : Config.Zone) (state : Config.ZoneState)
    (existingZone : Option PowerDNS.Zone) (opts : ApplyOptions) (result : ApplyResult) :
    Except Err Unit × ApplyResult × σ :=
  if !state.exists_ then
    if !opts.dryRun then
      match client.createZone s
        { name := zoneID, kind := zoneConfig.kind, account := m.accountName,
          nameservers := m.normalizeNameservers zoneConfig.nameservers zoneID,
          rrsets := [] } with
      | .error e => (.error (.wrap "failed to create zone" e), result, s)
      | .ok (created, s') =>
        m.applyRRsets client s' zoneID zoneConfig created state opts
          { result with zonesCreated := result.zonesCreated + 1 }
    else
      -- dry run: mock zone for RRset processing
      m.applyRRsets client s zoneID zoneConfig
        { name := zoneID, kind := "", account := "", nameservers := [], rrsets := [] }
        state opts { result with zonesCreated := result.zonesCreated + 1 }
  else
    m.applyRRsets client s zoneID zoneConfig
      (existingZone.getD { name := "", kind := "", account := "", nameservers := [], rrsets := [] })
      state opts result

/-- Step 1 of `Apply`: fetch the current state of every configured zone,
accumulating `existingZones` and `zoneData`; the first fetch error aborts. -/
def Manager.fetchZones {σ : Type} (m : Manager) (client : Client σ) (s : σ) :
    List (String × Config.Zone) →
    List (String × Config.ZoneState) → List (String × PowerDNS.Zone) →
    Except Err (List (String × Config.ZoneState) × List (String × PowerDNS.Zone))
  | [], existingZones, zoneData => .ok (existingZones, zoneData)
  | (zoneName, _) :: rest, existingZones, zoneData =>
    match client.getZone s (Config.CanonicalZoneName zoneName) with
    | .error e => .error (.wrap ("failed to check zone " ++ zoneName) e)
    | .ok (some zone) =>
      m.fetchZones client s rest
        (alistUpsert existingZones (Config.CanonicalZoneName zoneName)
          ⟨true, zone.account == m.accountName⟩)
        (alistUpsert zoneData (Config.CanonicalZoneName zoneName) zone)
    | .ok none =>
      m.fetchZones client s rest
        (alistUpsert existingZones (Config.CanonicalZoneName zoneName) ⟨false, false⟩)
        zoneData

/-- Step 3 of `Apply`: process each zone; a per-zone error is appended to
`result.errors` and processing continues. -/
def Manager.applyLoop {σ : Type} (m : Manager) (client : Client σ)
    (existingZones : List (String × Config.ZoneState))
    (zoneData : List (String × PowerDNS.Zone)) (opts : ApplyOptions) :
    List (String × Config.Zone) → σ → ApplyResult → ApplyResult × σ
  | [], s, result => (result, s)
  | (zoneName, zoneConfig) :: rest, s, result =>
    match m.applyZone client s (Config.CanonicalZoneName zoneName)
        zoneConfig.NormalizeZone
        (Config.lookupState existingZones (Config.CanonicalZoneName zoneName))
        (alistFind? zoneData (Config.CanonicalZoneName zoneName)) opts result with
    | (.error e, result', s') =>
      m.applyLoop client existingZones zoneData opts rest s'
        { result' with errors := result'.errors ++ [.wrap ("zone " ++ zoneName) e] }
    | (.ok _, result', s') =>
      m.applyLoop client existingZones zoneData opts rest s' result'

/-- `manager.Manager.Apply`: fetch all state, validate, then apply each
zone. Returns the Go `(result, error)` pair plus the final client state. -/
def Manager.Apply {σ : Type} (m : Manager) (client : Client σ) (s : σ) (cfg : Config)
    (opts : ApplyOptions) : Except Err ApplyResult × σ :=
  match m.fetchZones client s cfg.zones [] [] with
  | .error e => (.error e, s)
  | .ok (existingZones, zoneData) =>
    match Config.Validate cfg existingZones with
    | [] =>
      let (result, s') := m.applyLoop client existingZones zoneData opts cfg.zones s
        { errors := [], zonesCreated := 0, rrsetsCreated := 0,
          rrsetsUpdated := 0, rrsetsDeleted := 0 }
      (.ok result, s')
    | errs => (.error (.validationFailed errs), s)

/-! ## In-memory backend

The PowerDNS server itself is not part of this repository; for the claims
that relate two `Apply` runs ("the second run fetches exactly the state
left by the first") it is modelled from the spec.
-/

/-- Modelled from the spec: one record-set change operation of
`PATCH /zones/{zoneId}` ("a batch of record-set change operations (each
tagged `REPLACE` or `DELETE`)"). `REPLACE` swaps in the record set under
its `(name, type)` key, `DELETE` removes it. -/
def applyRRsetOp (rrsets : List PowerDNS.RRset) (op : PowerDNS.RRset) :
    List PowerDNS.RRset :=
  if op.changeType == "DELETE" then
    rrsets.filter fun r => rrsetKey r.name r.typ != rrsetKey op.name op.typ
  else
    (rrsets.filter fun r => rrsetKey r.name r.typ != rrsetKey op.name op.typ) ++
      [{ op with changeType := "" }]

/-- Modelled from the spec: apply a whole batched patch in order. -/
def applyPatchOps (rrsets ops : List PowerDNS.RRset) : List PowerDNS.RRset :=
  ops.foldl applyRRsetOp rrsets

/-- The in-memory backend state: zones by zone id. -/
abbrev MemState := List (String × PowerDNS.Zone)

/-- Modelled from the spec: an in-memory PowerDNS backend.
`GET` looks the zone up (404 is `.ok none`), `POST` stores the zone as
sent (mirroring the repository's own `MockClient`, whose `CreateZone`
returns the zone that was passed in), `PATCH` applies the batch to the
stored record sets. All calls succeed. -/
def memClient : Client MemState where
  getZone := fun s zoneID => .ok (alistFind? s zoneID)
  createZone := fun s zone => .ok (zone, alistUpsert s zone.name zone)
  patchZone := fun s zoneID patch =>
    match alistFind? s zoneID with
    | none => .error (.msg "Not Found")
    | some zone =>
      .ok (alistUpsert s zoneID
        { zone with rrsets := applyPatchOps zone.rrsets patch.rrsets })

/-- The `ZoneState` that the fetch phase derives for key `c` from an
in-memory backend state (helper for stating lemmas). -/
def zoneStateOf (m : Manager) (s : MemState) (c : String) : Config.ZoneState :=
  match alistFind? s c with
  | some z => ⟨true, z.account == m.accountName⟩
  | none => ⟨false, false⟩

/-- The four `ApplyResult` counters. -/
def countersOf (r : ApplyResult) : Nat × Nat × Nat × Nat :=
  (r.zonesCreated, r.rrsetsCreated, r.rrsetsUpdated, r.rrsetsDeleted)

/-- The claim's phrase "wrapped in double quotes", stated from the spec's
words: the string both starts and ends with a double-quote character. -/
def specWrappedInQuotes (s : String) : Bool :=
  strStarts s "\"" && strEnds s "\""

/-- The `(content, disabled)` pair of a record (the data `shouldUpdateRRset`
compares, per the spec's tie-break rule). -/
def recordPair (r : PowerDNS.Record) : String × Bool :=
  (r.content, r.disabled)

/-- `recordSortKey` as a function of the `(content, disabled)` pair. -/
def encodePair (p : String × Bool) : String :=
  p.1 ++ "|" ++ (if p.2 then "true" else "false")

/-! ### Concrete instances used by witnesses and counterexamples -/

/-- A manager with the default account name and no confirmation callback. -/
def wMgr : Manager := ⟨"zone-manager", none⟩

/-- C7 counterexample input: a TXT record whose content starts with a double
quote but does not end with one (so it is not "wrapped in double quotes"). -/
def w7Zone : Config.Zone :=
  ⟨"", [], [⟨"t", "TXT", some (.str "\"x"), none, ""⟩]⟩

/-- C7 witness input: a TXT record with plain unquoted content. -/
def w7bZone : Config.Zone :=
  ⟨"", [], [⟨"t", "TXT", some (.str "hello"), none, ""⟩]⟩

/-- The normalized record sets of `w7bZone`. -/
def w7bRs : List Config.RRset := [⟨"t", "TXT", "", [⟨"hello", "", false⟩], 300⟩]

/-- The desired map built from `w7bZone`. -/
def w7bDesired : List (String × PowerDNS.RRset) :=
  [("t.example.com./TXT",
    ⟨"t.example.com.", "TXT", "", [⟨"\"hello\"", false⟩], [], 300⟩)]

/-- C6 witness inputs: one zone, recorded as existing in one state map and
absent in the other. -/
def w6Zone : Config.Zone := ⟨"Native", [], []⟩

/-- C6 witness configuration. -/
def w6Cfg : Config := ⟨[("example.com", w6Zone)]⟩

/-- C8 witness: a manager whose confirmation callback declines. -/
def w8Mgr : Manager := ⟨"zone-manager", some fun _ => false⟩

/-- C8/C9 witness patch entry source: a concrete desired record set. -/
def w8RRset : PowerDNS.RRset :=
  ⟨"www.example.com.", "A", "", [⟨"192.168.1.1", false⟩], [], 300⟩

/-- C1 witness configuration: two desired A records. -/
def w1Cfg : Config.Zone :=
  ⟨"", [], [⟨"www", "A", some (.str "1.2.3.4"), none, ""⟩,
            ⟨"api", "A", some (.str "5.6.7.8"), none, ""⟩]⟩

/-- C1 witness backend zone: an unmanaged record set at the `www` key. -/
def w1Zone : PowerDNS.Zone :=
  ⟨"example.com.", "Native", "other", [],
   [⟨"www.example.com.", "A", "", [⟨"9.9.9.9", false⟩], [], 300⟩]⟩

/-- The desired map built from `w1Cfg`. -/
def w1Desired : List (String × PowerDNS.RRset) :=
  [("www.example.com./A", ⟨"www.example.com.", "A", "", [⟨"1.2.3.4", false⟩], [], 300⟩),
   ("api.example.com./A", ⟨"api.example.com.", "A", "", [⟨"5.6.7.8", false⟩], [], 300⟩)]

/-- The single patch entry the C1 witness diff emits. -/
def w1P : PowerDNS.RRset :=
  wMgr.createRRsetPatch ⟨"api.example.com.", "A", "", [⟨"5.6.7.8", false⟩], [], 300⟩

/-- C10 witness: a client equal to `memClient` except that every patch is
rejected by the backend. -/
def wFailPatchClient : Client MemState where
  getZone := memClient.getZone
  createZone := memClient.createZone
  patchZone := fun _ _ _ => .error (.msg "backend rejected")

/-- C5 witness configuration: two new zones. -/
def w5Cfg : Config := ⟨[
  ("a", ⟨"", ["ns1.a."], [⟨"x", "A", some (.str "1.1.1.1"), none, ""⟩]⟩),
  ("b", ⟨"", ["ns1.b."], [⟨"x", "A", some (.str "2.2.2.2"), none, ""⟩]⟩)]⟩

/-- C5 witness client: patches to zone `a.` are rejected; everything else
behaves like the in-memory backend. -/
def w5Client : Client MemState where
  getZone := memClient.getZone
  createZone := memClient.createZone
  patchZone := fun s zoneID patch =>
    if zoneID == "a." then .error (.msg "backend rejected")
    else memClient.patchZone s zoneID patch

/-- C5 witness client: every zone fetch fails. -/
def w5FailFetch : Client MemState where
  getZone := fun _ _ => .error (.msg "connection refused")
  createZone := memClient.createZone
  patchZone := memClient.patchZone

/-- The C5 demonstration run: zone `a.`'s patch is rejected, zone `b.` is
still processed. -/
def w5Run : Except Err ApplyResult × MemState :=
  wMgr.Apply w5Client ([] : MemState) w5Cfg ⟨false, true⟩

/-- The per-zone counter increments that `applyZone` plans (zone creation,
record sets created / updated / deleted), computed purely from the diff —
the helper used to state that counters are independent of patch outcome
and of dry-run mode. -/
def plannedCounters (m : Manager) (zoneID : String) (zc : Config.Zone)
    (st : Config.ZoneState) (entry : Option PowerDNS.Zone) : Nat × Nat × Nat × Nat :=
  let exRRsets := if st.exists_ then (entry.getD ⟨"", "", "", [], []⟩).rrsets else []
  match m.buildDesiredRRsets zoneID zc st with
  | .error _ => (if st.exists_ then 0 else 1, 0, 0, 0)
  | .ok desired =>
    (if st.exists_ then 0 else 1,
     (m.diffDesired (buildKeyMap exRRsets) desired).2.1,
     (m.diffDesired (buildKeyMap exRRsets) desired).2.2,
     (m.diffOrphans desired (buildKeyMap exRRsets)).2)

/-- The last record set in a list whose `(name, type)` key is `k`
(helper used to characterize `buildKeyMap` and the backend patch
semantics). -/
def findByKey : List PowerDNS.RRset → String → Option PowerDNS.RRset
  | [], _ => none
  | r :: rest, k =>
    match findByKey rest k with
    | some r' => some r'
    | none => if rrsetKey r.name r.typ == k then some r else none

/-- The `(name, type)` key of a patch operation. -/
def opKey (op : PowerDNS.RRset) : String := rrsetKey op.name op.typ

/-- C2 witness configuration: one new zone with a nameserver and one A
record. -/
def w2Cfg : Config :=
  ⟨[("example.org", ⟨"", ["ns1.example.org."],
     [⟨"www", "A", some (.str "1.2.3.4"), none, ""⟩]⟩)]⟩

/-- C2 counterexample configuration: two configuration entries whose names
canonicalize to the same zone (`example.com` and `example.com.`), each
desiring a different A record under the shared zone. -/
def d2Cfg : Config :=
  ⟨[("example.com", ⟨"", ["ns1.example.com."],
     [⟨"www", "A", some (.str "1.2.3.4"), none, ""⟩]⟩),
    ("example.com.", ⟨"", ["ns1.example.com."],
     [⟨"api", "A", some (.str "5.6.7.8"), none, ""⟩]⟩)]⟩

/-- The first counterexample run, from an empty backend. -/
def d2Run1 : Except Err ApplyResult × MemState :=
  wMgr.Apply memClient ([] : MemState) d2Cfg ⟨false, true⟩

/-- The second counterexample run, on the state the first run left. -/
def d2Run2 : Except Err ApplyResult × MemState :=
  wMgr.Apply memClient d2Run1.2 d2Cfg ⟨false, true⟩

/-- The backend state left by the first C2 witness run on `w2Cfg`. -/
def w2S1 : MemState :=
  [("example.org.",
    ⟨"example.org.", "Native", "zone-manager", ["ns1.example.org."],
     [⟨"example.org.", "NS", "", [⟨"ns1.example.org.", false⟩],
       [⟨"Managed by zone-manager", "zone-manager"⟩], 300⟩,
      ⟨"www.example.org.", "A", "", [⟨"1.2.3.4", false⟩],
       [⟨"Managed by zone-manager", "zone-manager"⟩], 300⟩]⟩)]

/-! ## Lemmas and claim theorems -/

theorem string_ext {s t : String} (h : s.data = t.data) : s = t := by
  cases s; cases t; exact congrArg String.mk (by simpa using h)

theorem recordSortKey_eq_encodePair (r : PowerDNS.Record) :
    recordSortKey r = encodePair (recordPair r) := rfl

theorem encodePair_injective : Function.Injective encodePair := by
  rintro ⟨c1, d1⟩ ⟨c2, d2⟩ h
  unfold encodePair at h
  have hd := congrArg String.data h
  simp only [String.data_append] at hd
  rcases d1 <;> rcases d2 <;> simp only [if_true, if_false, Bool.false_eq_true,
    Bool.true_eq_false, ite_true, ite_false] at hd
  · have hc := List.append_cancel_right (List.append_cancel_right hd)
    rw [string_ext hc]
  · have := congrArg List.reverse hd
    simp [List.reverse_append] at this
  · have := congrArg List.reverse hd
    simp [List.reverse_append] at this
  · have hc := List.append_cancel_right (List.append_cancel_right hd)
    rw [string_ext hc]

theorem sortStrings_eq_iff {A B : List String} :
    sortStrings A = sortStrings B ↔ A.Perm B := by
  constructor
  · intro h
    unfold sortStrings at h
    have p := List.perm_insertionSort (fun a b : String => a.data ≤ b.data) A
    rw [h] at p
    exact p.symm.trans (List.perm_insertionSort _ B)
  · intro h
    exact List.eq_of_perm_of_sorted
      ((List.perm_insertionSort _ A).trans (h.trans (List.perm_insertionSort _ B).symm))
      (List.sorted_insertionSort _ A) (List.sorted_insertionSort _ B)

theorem map_encodePair_perm_iff {A B : List (String × Bool)} :
    (A.map encodePair).Perm (B.map encodePair) ↔ A.Perm B := by
  constructor
  · intro h
    have hm : Multiset.map encodePair (↑A) = Multiset.map encodePair (↑B) := by
      rw [Multiset.map_coe, Multiset.map_coe]
      exact Multiset.coe_eq_coe.mpr h
    exact Multiset.coe_eq_coe.mp (Multiset.map_injective encodePair_injective hm)
  · exact fun h => h.map _

theorem sorted_tags_ne_iff (d e : List PowerDNS.Record) :
    (sortStrings (d.map recordSortKey) ≠ sortStrings (e.map recordSortKey)) ↔
      ¬ (d.map recordPair).Perm (e.map recordPair) := by
  apply not_congr
  rw [show d.map recordSortKey = (d.map recordPair).map encodePair from by
        rw [List.map_map]; rfl,
      show e.map recordSortKey = (e.map recordPair).map encodePair from by
        rw [List.map_map]; rfl]
  exact sortStrings_eq_iff.trans map_encodePair_perm_iff

/-- **C4.** An update is emitted iff the TTLs differ, the record counts
differ, or the multisets of `(content, disabled)` pairs differ; record
order and any comment data never enter the comparison (the function reads
nothing else of its arguments). -/
theorem shouldUpdateRRset_iff (m : Manager) (desired existing : PowerDNS.RRset) :
    m.shouldUpdateRRset desired existing = true ↔
      (desired.ttl ≠ existing.ttl ∨
       desired.records.length ≠ existing.records.length ∨
       ¬ (desired.records.map recordPair).Perm (existing.records.map recordPair)) := by
  unfold Manager.shouldUpdateRRset
  by_cases h1 : desired.ttl = existing.ttl
  · by_cases h2 : desired.records.length = existing.records.length
    · rw [if_neg (by simp [h1]), if_neg (by simp [h2]), bne_iff_ne]
      constructor
      · intro h
        exact Or.inr (Or.inr ((sorted_tags_ne_iff _ _).mp h))
      · rintro (h | h | h)
        · exact absurd h1 h
        · exact absurd h2 h
        · exact (sorted_tags_ne_iff _ _).mpr h
    · rw [if_neg (by simp [h1]), if_pos (by simp [bne_iff_ne, h2])]
      exact ⟨fun _ => Or.inr (Or.inl h2), fun _ => rfl⟩
  · rw [if_pos (by simp [bne_iff_ne, h1])]
    exact ⟨fun _ => Or.inl h1, fun _ => rfl⟩

/-! ### Association-list lemmas -/

theorem alistFind?_nil {α : Type} (k : String) :
    alistFind? ([] : List (String × α)) k = none := rfl

theorem alistFind?_cons {α : Type} (k' k : String) (v : α) (l : List (String × α)) :
    alistFind? ((k', v) :: l) k = if k' = k then some v else alistFind? l k := by
  simp [alistFind?, beq_iff_eq]

theorem alistUpsert_nil {α : Type} (k : String) (v : α) :
    alistUpsert ([] : List (String × α)) k v = [(k, v)] := rfl

theorem alistUpsert_cons {α : Type} (k' k : String) (w v : α) (l : List (String × α)) :
    alistUpsert ((k', w) :: l) k v =
      if k' = k then (k, v) :: l else (k', w) :: alistUpsert l k v := by
  simp [alistUpsert, beq_iff_eq]

theorem alistFind?_upsert_self {α : Type} (l : List (String × α)) (k : String) (v : α) :
    alistFind? (alistUpsert l k v) k = some v := by
  induction l with
  | nil => simp [alistUpsert_nil, alistFind?_cons]
  | cons p rest ih =>
    obtain ⟨k', w⟩ := p
    rw [alistUpsert_cons]
    by_cases h : k' = k
    · rw [if_pos h, alistFind?_cons, if_pos rfl]
    · rw [if_neg h, alistFind?_cons, if_neg h]
      exact ih

theorem alistFind?_upsert_other {α : Type} (l : List (String × α)) (k k' : String) (v : α)
    (h : k' ≠ k) : alistFind? (alistUpsert l k v) k' = alistFind? l k' := by
  induction l with
  | nil => rw [alistUpsert_nil, alistFind?_cons, if_neg (Ne.symm h), alistFind?_nil]
  | cons p rest ih =>
    obtain ⟨k'', w⟩ := p
    rw [alistUpsert_cons]
    by_cases h2 : k'' = k
    · rw [if_pos h2, alistFind?_cons, if_neg (Ne.symm h), alistFind?_cons,
        if_neg (fun he : k'' = k' => h (h2 ▸ he ▸ rfl))]
    · rw [if_neg h2, alistFind?_cons, alistFind?_cons]
      by_cases h3 : k'' = k'
      · rw [if_pos h3, if_pos h3]
      · rw [if_neg h3, if_neg h3]
        exact ih

theorem mem_alistUpsert {α : Type} {l : List (String × α)} {k : String} {v : α}
    {p : String × α} (h : p ∈ alistUpsert l k v) : p = (k, v) ∨ p ∈ l := by
  induction l with
  | nil => simpa [alistUpsert_nil] using h
  | cons q rest ih =>
    obtain ⟨k', w⟩ := q
    rw [alistUpsert_cons] at h
    by_cases h2 : k' = k
    · rw [if_pos h2] at h
      rcases List.mem_cons.mp h with h | h
      · exact Or.inl h
      · exact Or.inr (List.mem_cons_of_mem _ h)
    · rw [if_neg h2] at h
      rcases List.mem_cons.mp h with h | h
      · exact Or.inr (h ▸ List.mem_cons_self _ _)
      · rcases ih h with h | h
        · exact Or.inl h
        · exact Or.inr (List.mem_cons_of_mem _ h)

theorem mem_keys_alistUpsert {α : Type} {l : List (String × α)} {k key : String} {v : α} :
    key ∈ (alistUpsert l k v).map Prod.fst ↔ key = k ∨ key ∈ l.map Prod.fst := by
  induction l with
  | nil => simp [alistUpsert_nil]
  | cons q rest ih =>
    obtain ⟨k', w⟩ := q
    rw [alistUpsert_cons]
    by_cases h2 : k' = k
    · subst h2
      simp
    · simp only [if_neg h2, List.map_cons, List.mem_cons, ih]
      tauto

theorem nodupKeys_alistUpsert {α : Type} {l : List (String × α)} {k : String} {v : α}
    (h : (l.map Prod.fst).Nodup) : ((alistUpsert l k v).map Prod.fst).Nodup := by
  induction l with
  | nil => simp [alistUpsert_nil]
  | cons q rest ih =>
    obtain ⟨k', w⟩ := q
    simp only [List.map_cons, List.nodup_cons] at h
    rw [alistUpsert_cons]
    by_cases h2 : k' = k
    · subst h2
      simpa using h
    · simp only [if_neg h2, List.map_cons, List.nodup_cons]
      refine ⟨fun hmem => ?_, ih h.2⟩
      rcases mem_keys_alistUpsert.mp hmem with h3 | h3
      · exact h2 h3
      · exact h.1 h3

theorem mem_of_alistFind?_eq_some {α : Type} {l : List (String × α)} {k : String} {v : α}
    (h : alistFind? l k = some v) : (k, v) ∈ l := by
  induction l with
  | nil => simp [alistFind?_nil] at h
  | cons q rest ih =>
    obtain ⟨k', w⟩ := q
    rw [alistFind?_cons] at h
    by_cases h2 : k' = k
    · rw [if_pos h2] at h
      subst h2
      obtain rfl := Option.some_inj.mp h
      exact List.mem_cons_self _ _
    · rw [if_neg h2] at h
      exact List.mem_cons_of_mem _ (ih h)

theorem alistFind?_eq_some_of_mem {α : Type} {l : List (String × α)} {k : String} {v : α}
    (hnodup : (l.map Prod.fst).Nodup) (h : (k, v) ∈ l) : alistFind? l k = some v := by
  induction l with
  | nil => simp at h
  | cons q rest ih =>
    obtain ⟨k', w⟩ := q
    simp only [List.map_cons, List.nodup_cons] at hnodup
    rcases List.mem_cons.mp h with h | h
    · cases h
      rw [alistFind?_cons, if_pos rfl]
    · have hk : k' ≠ k := by
        intro he
        exact hnodup.1 (he ▸ (List.mem_map.mpr ⟨(k, v), h, rfl⟩))
      rw [alistFind?_cons, if_neg hk]
      exact ih hnodup.2 h

theorem alistFind?_isSome_of_mem {α : Type} {l : List (String × α)} {k : String} {v : α}
    (h : (k, v) ∈ l) : (alistFind? l k).isSome := by
  induction l with
  | nil => simp at h
  | cons q rest ih =>
    obtain ⟨k', w⟩ := q
    rw [alistFind?_cons]
    by_cases h2 : k' = k
    · simp [h2]
    · rw [if_neg h2]
      rcases List.mem_cons.mp h with h | h
      · exact absurd (congrArg Prod.fst h).symm h2
      · exact ih h

theorem nodup_key_unique {α : Type} {l : List (String × α)} {k : String} {a b : α}
    (hnodup : (l.map Prod.fst).Nodup) (ha : (k, a) ∈ l) (hb : (k, b) ∈ l) : a = b := by
  have h1 := alistFind?_eq_some_of_mem hnodup ha
  have h2 := alistFind?_eq_some_of_mem hnodup hb
  rw [h1] at h2
  exact Option.some_inj.mp h2

/-! ### C6: the nameservers-required validation rule -/

theorem nsRequired_not_mem_validateRRsetsGo (n zn : String) (rrsets : List Config.RRsetInput)
    (i : Nat) (seen : List String) :
    VErr.nsRequired n ∉ Config.validateRRsetsGo zn rrsets i seen := by
  induction rrsets generalizing i seen with
  | nil => simp [Config.validateRRsetsGo]
  | cons rrset rest ih =>
    unfold Config.validateRRsetsGo
    by_cases h1 : strUpper rrset.typ = "NS"
    · simpa [h1] using ih (i + 1) seen
    · by_cases h2 : strUpper rrset.typ = "SOA"
      · simpa [h1, h2] using ih (i + 1) seen
      · simp only [beq_iff_eq, h1, h2, if_false, if_neg h1, if_neg h2, List.mem_append]
        intro h
        rcases h with ((((h | h) | h) | h) | h)
        · split at h <;> simp_all
        · split at h <;> simp_all
        · split at h <;> simp_all
        · split at h
          · simp at h
          · rcases List.mem_append.mp h with h | h
            · split at h <;> simp_all
            · rcases List.mem_filterMap.mp h with ⟨x, _, hx⟩
              split at hx <;> simp_all
        · exact ih _ _ h

theorem nsRequired_mem_validateZone_iff (n zn : String) (zone : Config.Zone)
    (ez : List (String × Config.ZoneState)) :
    VErr.nsRequired n ∈ Config.validateZone zn zone ez ↔
      (n = zn ∧
       (Config.lookupState ez (Config.CanonicalZoneName zn)).exists_ = false ∧
       zone.nameservers = []) := by
  unfold Config.validateZone
  simp only [List.mem_append]
  constructor
  · intro h
    rcases h with ((((h | h) | h) | h) | h)
    · split at h
      · rename_i hcond
        simp only [List.mem_singleton] at h
        cases h
        simp only [Bool.and_eq_true, Bool.not_eq_true', beq_iff_eq] at hcond
        refine ⟨rfl, hcond.1, ?_⟩
        exact List.length_eq_zero.mp (by simpa using hcond.2)
      · simp at h
    · split at h <;> simp_all
    · rcases List.mem_filterMap.mp h with ⟨x, _, hx⟩
      split at hx <;> simp_all
    · split at h <;> simp_all
    · exact absurd h (nsRequired_not_mem_validateRRsetsGo n zn zone.rrsets 0 [])
  · rintro ⟨rfl, h1, h2⟩
    refine Or.inl (Or.inl (Or.inl (Or.inl ?_)))
    rw [if_pos]
    · exact List.mem_singleton.mpr rfl
    · simp [h1, h2]

theorem mem_Validate_iff (cfg : Config) (ez : List (String × Config.ZoneState)) (v : VErr) :
    v ∈ cfg.Validate ez ↔ ∃ p ∈ cfg.zones, v ∈ Config.validateZone p.1 p.2 ez := by
  unfold Config.Validate
  induction cfg.zones with
  | nil => simp
  | cons p rest ih => simp [List.mem_append, ih]

/-- **C6.** For every configuration and zone-state map (with the Go-map
invariant that configured zone names are distinct), validation reports the
"nameservers are required" violation for a configured zone iff that zone's
state says it does not exist and its nameserver list is empty; a zone
recorded as existing never receives it. -/
theorem validate_nsRequired_iff (cfg : Config) (ez : List (String × Config.ZoneState))
    (zoneName : String) (zone : Config.Zone)
    (hmem : (zoneName, zone) ∈ cfg.zones)
    (hnodup : (cfg.zones.map Prod.fst).Nodup) :
    VErr.nsRequired zoneName ∈ cfg.Validate ez ↔
      ((Config.lookupState ez (Config.CanonicalZoneName zoneName)).exists_ = false ∧
        zone.nameservers = []) := by
  rw [mem_Validate_iff]
  constructor
  · rintro ⟨p, hp, hv⟩
    obtain ⟨k, z⟩ := p
    obtain ⟨rfl, h1, h2⟩ := (nsRequired_mem_validateZone_iff ..).mp hv
    have : z = zone := nodup_key_unique hnodup hp hmem
    subst this
    exact ⟨h1, h2⟩
  · rintro ⟨h1, h2⟩
    exact ⟨(zoneName, zone), hmem,
      (nsRequired_mem_validateZone_iff ..).mpr ⟨rfl, h1, h2⟩⟩

/-! ### C7: TXT quoting in the desired-state builder -/

theorem mem_foldl_alistUpsert {α β : Type} (f : β → String) (g : β → α) :
    ∀ (rs : List β) (acc : List (String × α)) (p : String × α),
      p ∈ rs.foldl (fun acc r => alistUpsert acc (f r) (g r)) acc →
      p ∈ acc ∨ ∃ r ∈ rs, p = (f r, g r) := by
  intro rs
  induction rs with
  | nil => exact fun acc p h => Or.inl h
  | cons r rest ih =>
    intro acc p h
    rcases ih _ p h with h | ⟨r', hr', rfl⟩
    · rcases mem_alistUpsert h with h | h
      · exact Or.inr ⟨r, List.mem_cons_self .., h⟩
      · exact Or.inl h
    · exact Or.inr ⟨r', List.mem_cons_of_mem _ hr', rfl⟩

theorem buildDesiredRRsets_eq (m : Manager) (zoneID : String) (cfg : Config.Zone)
    (state : Config.ZoneState) {rs : List Config.RRset}
    (hrs : cfg.NormalizeRRsets = .ok rs) :
    m.buildDesiredRRsets zoneID cfg state = .ok (rs.foldl (fun acc rrset =>
      alistUpsert acc (rrsetKey (m.buildFQDN rrset.name zoneID) rrset.typ)
        (desiredRRsetOf m zoneID rrset))
      (if cfg.nameservers.length > 0 then
        if state.isManaged || !state.exists_ then
          [(rrsetKey zoneID "NS", nsDesiredRRset m zoneID cfg)]
        else []
       else [])) := by
  unfold Manager.buildDesiredRRsets
  rw [hrs]
  rfl

theorem buildDesired_mem (m : Manager) (zoneID : String) (cfg : Config.Zone)
    (state : Config.ZoneState) {rs : List Config.RRset}
    {desired : List (String × PowerDNS.RRset)}
    (hrs : cfg.NormalizeRRsets = .ok rs)
    (hok : m.buildDesiredRRsets zoneID cfg state = .ok desired)
    {p : String × PowerDNS.RRset} (hp : p ∈ desired) :
    p = (rrsetKey zoneID "NS", nsDesiredRRset m zoneID cfg) ∨
    ∃ r ∈ rs, p = (rrsetKey (m.buildFQDN r.name zoneID) r.typ, desiredRRsetOf m zoneID r) := by
  rw [buildDesiredRRsets_eq m zoneID cfg state hrs] at hok
  obtain rfl := (Except.ok.injEq .. ▸ hok : _ = desired)
  rcases mem_foldl_alistUpsert _ _ rs _ p hp with h | h
  · split at h
    · split at h
      · exact Or.inl (List.mem_singleton.mp h)
      · simp at h
    · simp at h
  · exact Or.inr h

theorem goQuote_wrapped (c : String) : specWrappedInQuotes (goQuote c) = true := by
  unfold specWrappedInQuotes goQuote strStarts strEnds
  refine Bool.and_eq_true .. ▸ ⟨?_, ?_⟩
  · simp [List.isPrefixOf]
  · show (("\"" : String).data.reverse.isPrefixOf
      (('"' :: (goQuoteData c.data ++ ['"'])).reverse)) = true
    rw [show ('"' :: (goQuoteData c.data ++ ['"'])).reverse =
        '"' :: (goQuoteData c.data).reverse.append ['"'] from by
      simp]
    simp [List.isPrefixOf]

theorem txtNormalize_quoted (c : String) (h : strStarts c "\"" = true) :
    txtNormalizeContent "TXT" c = c := by
  unfold txtNormalizeContent
  simp [h]

theorem txtNormalize_unquoted (c : String) (h : strStarts c "\"" = false) :
    txtNormalizeContent "TXT" c = goQuote c := by
  unfold txtNormalizeContent
  simp [h]

theorem txtNormalize_other (t c : String) (h : t ≠ "TXT") :
    txtNormalizeContent t c = c := by
  unfold txtNormalizeContent
  simp [h]

/-- **C7 counterexample.** The claim "any content string that is not already
wrapped in double quotes is wrapped in double quotes" fails at the TXT
content `"x` (a leading quote, no trailing quote): it is not wrapped in
double quotes, yet `buildDesiredRRsets` copies it through unchanged — still
unwrapped — because the code only tests `strings.HasPrefix(content, "\"")`. -/
theorem txt_quoting_cex :
    wMgr.buildDesiredRRsets "example.com." w7Zone ⟨false, false⟩ =
      .ok [("t.example.com./TXT",
        ⟨"t.example.com.", "TXT", "", [⟨"\"x", false⟩], [], 300⟩)] ∧
    specWrappedInQuotes "\"x" = false := by
  exact ⟨rfl, rfl⟩

/-- **C7 (amended).** When building the desired state, a TXT record content
that does not *start* with a double quote is replaced by its Go `%q` quoted
form (which is wrapped in double quotes, escaping interior special
characters); content that already starts with a double quote, and content
of non-TXT types, is copied unchanged. Every desired entry is either the
synthesized NS record set or the image of a configured record set under
exactly this transformation. -/
theorem txt_quoting_amended (m : Manager) (zoneID : String) (cfg : Config.Zone)
    (state : Config.ZoneState) (rs : List Config.RRset)
    (desired : List (String × PowerDNS.RRset))
    (hrs : cfg.NormalizeRRsets = .ok rs)
    (hok : m.buildDesiredRRsets zoneID cfg state = .ok desired) :
    (∀ p ∈ desired,
        p = (rrsetKey zoneID "NS", nsDesiredRRset m zoneID cfg) ∨
        ∃ r ∈ rs, p = (rrsetKey (m.buildFQDN r.name zoneID) r.typ,
          desiredRRsetOf m zoneID r)) ∧
    (∀ r : Config.RRset, (desiredRRsetOf m zoneID r).records =
        r.records.map fun rec =>
          ⟨txtNormalizeContent r.typ rec.content, rec.disabled⟩) ∧
    (∀ c, strStarts c "\"" = true → txtNormalizeContent "TXT" c = c) ∧
    (∀ c, strStarts c "\"" = false → txtNormalizeContent "TXT" c = goQuote c) ∧
    (∀ t c, t ≠ "TXT" → txtNormalizeContent t c = c) ∧
    (∀ c, specWrappedInQuotes (goQuote c) = true) := by
  refine ⟨fun p hp => buildDesired_mem m zoneID cfg state hrs hok hp,
    fun r => rfl, txtNormalize_quoted, txtNormalize_unquoted, txtNormalize_other,
    goQuote_wrapped⟩

/-- Witness for the amended C7 at a concrete input. -/
theorem txt_quoting_amended_witness :
    txtNormalizeContent "TXT" "hello" = goQuote "hello" ∧
    specWrappedInQuotes (goQuote "hello") = true := by
  have h := txt_quoting_amended wMgr "example.com." w7bZone ⟨false, false⟩
    w7bRs w7bDesired rfl rfl
  exact ⟨h.2.2.2.1 "hello" rfl, h.2.2.2.2.2 "hello"⟩

/-! ### C8: patch gating (dry-run, confirmation, empty op list) -/

/-- **C8.** For a non-empty op list with dry-run off and auto-confirm off,
a declining confirmation callback makes `sendPatch` return the
distinguished `ErrAborted` without calling `PatchZone` (the conclusion
holds for every client, so no patch is applied); under dry-run it returns
success with the state unchanged and no backend call; an empty op list is
a no-op returning success. -/
theorem sendPatch_gating {σ : Type} (m : Manager) (client : Client σ) (s : σ)
    (zoneID : String) (ops : List PowerDNS.RRset) (opts : ApplyOptions)
    (confirm : String → Bool) :
    (ops ≠ [] → opts.dryRun = false → opts.autoConfirm = false →
      m.confirmFn = some confirm → confirm "Apply these changes?" = false →
      m.sendPatch client s zoneID ops opts = .error ErrAborted) ∧
    (opts.dryRun = true → m.sendPatch client s zoneID ops opts = .ok s) ∧
    (ops = [] → m.sendPatch client s zoneID ops opts = .ok s) := by
  refine ⟨?_, ?_, ?_⟩
  · intro hne hdry hauto hfn hconf
    unfold Manager.sendPatch
    rw [if_neg (by simpa [List.length_eq_zero] using hne), if_neg (by simp [hdry]),
      if_pos (by simp [hauto, hfn, hconf])]
  · intro hdry
    unfold Manager.sendPatch
    by_cases h : ops.length == 0
    · rw [if_pos h]
    · rw [if_neg h, if_pos (by simp [hdry])]
  · intro h
    subst h
    unfold Manager.sendPatch
    simp

/-- Witness for C8: a declining callback on a concrete non-empty patch. -/
theorem sendPatch_gating_witness :
    w8Mgr.sendPatch memClient ([] : MemState) "example.com."
      [w8RRset] ⟨false, false⟩ = .error ErrAborted ∧
    w8Mgr.sendPatch memClient ([] : MemState) "example.com."
      [w8RRset] ⟨true, false⟩ = .ok [] ∧
    w8Mgr.sendPatch memClient ([] : MemState) "example.com."
      [] ⟨false, false⟩ = .ok [] := by
  have h1 := sendPatch_gating w8Mgr memClient ([] : MemState) "example.com."
    [w8RRset] ⟨false, false⟩ (fun _ => false)
  have h2 := sendPatch_gating w8Mgr memClient ([] : MemState) "example.com."
    [w8RRset] ⟨true, false⟩ (fun _ => false)
  have h3 := sendPatch_gating w8Mgr memClient ([] : MemState) "example.com."
    [] ⟨false, false⟩ (fun _ => false)
  exact ⟨h1.1 (by simp) rfl rfl rfl rfl, h2.2.1 rfl, h3.2.2 rfl⟩

/-! ### C9: every REPLACE patch entry carries the ownership comment -/

theorem diffDesired_cons_none (m : Manager) {ex : List (String × PowerDNS.RRset)}
    {key : String} (d : PowerDNS.RRset) (rest : List (String × PowerDNS.RRset))
    (hfind : alistFind? ex key = none) :
    m.diffDesired ex ((key, d) :: rest) =
      (m.createRRsetPatch d :: (m.diffDesired ex rest).1,
       (m.diffDesired ex rest).2.1 + 1, (m.diffDesired ex rest).2.2) := by
  rcases hrec : m.diffDesired ex rest with ⟨patch, created, updated⟩
  simp [Manager.diffDesired, hrec, hfind]

theorem diffDesired_cons_some (m : Manager) {ex : List (String × PowerDNS.RRset)}
    {key : String} (d : PowerDNS.RRset) (rest : List (String × PowerDNS.RRset))
    {e : PowerDNS.RRset} (hfind : alistFind? ex key = some e) :
    m.diffDesired ex ((key, d) :: rest) =
      (if m.isManaged e then
         if m.shouldUpdateRRset d e then
           (m.createRRsetPatch d :: (m.diffDesired ex rest).1,
            (m.diffDesired ex rest).2.1, (m.diffDesired ex rest).2.2 + 1)
         else m.diffDesired ex rest
       else m.diffDesired ex rest) := by
  rcases hrec : m.diffDesired ex rest with ⟨patch, created, updated⟩
  by_cases hm : m.isManaged e
  · by_cases hu : m.shouldUpdateRRset d e <;>
      simp [Manager.diffDesired, hrec, hfind, hm, hu]
  · simp [Manager.diffDesired, hrec, hfind, hm]

theorem diffOrphans_cons_unmanaged (m : Manager) (desired : List (String × PowerDNS.RRset))
    {key : String} {ex : PowerDNS.RRset} (rest : List (String × PowerDNS.RRset))
    (hm : m.isManaged ex = false) :
    m.diffOrphans desired ((key, ex) :: rest) = m.diffOrphans desired rest := by
  rcases hrec : m.diffOrphans desired rest with ⟨patch, deleted⟩
  simp [Manager.diffOrphans, hrec, hm]

theorem diffOrphans_cons_managed_desired (m : Manager)
    {desired : List (String × PowerDNS.RRset)} {key : String} {ex : PowerDNS.RRset}
    (rest : List (String × PowerDNS.RRset)) (hm : m.isManaged ex = true)
    {d : PowerDNS.RRset} (hfind : alistFind? desired key = some d) :
    m.diffOrphans desired ((key, ex) :: rest) = m.diffOrphans desired rest := by
  rcases hrec : m.diffOrphans desired rest with ⟨patch, deleted⟩
  simp [Manager.diffOrphans, hrec, hm, hfind]

theorem diffOrphans_cons_managed_orphan (m : Manager)
    {desired : List (String × PowerDNS.RRset)} {key : String} {ex : PowerDNS.RRset}
    (rest : List (String × PowerDNS.RRset)) (hm : m.isManaged ex = true)
    (hfind : alistFind? desired key = none) :
    m.diffOrphans desired ((key, ex) :: rest) =
      (PowerDNS.RRset.mk ex.name ex.typ "DELETE" [] [] 0 :: (m.diffOrphans desired rest).1,
       (m.diffOrphans desired rest).2 + 1) := by
  rcases hrec : m.diffOrphans desired rest with ⟨patch, deleted⟩
  simp [Manager.diffOrphans, hrec, hm, hfind]

theorem mem_diffDesired_patch (m : Manager) (existingByKey : List (String × PowerDNS.RRset)) :
    ∀ (desired : List (String × PowerDNS.RRset)) (P : PowerDNS.RRset),
      P ∈ (m.diffDesired existingByKey desired).1 →
      ∃ p ∈ desired, P = m.createRRsetPatch p.2 := by
  intro desired
  induction desired with
  | nil => simp [Manager.diffDesired]
  | cons kv rest ih =>
    intro P hP
    obtain ⟨key, d⟩ := kv
    have step : P = m.createRRsetPatch d ∨ P ∈ (m.diffDesired existingByKey rest).1 := by
      rcases hfind : alistFind? existingByKey key with _ | e
      · rw [diffDesired_cons_none m d rest hfind] at hP
        simpa using List.mem_cons.mp hP
      · rw [diffDesired_cons_some m d rest hfind] at hP
        by_cases hm : m.isManaged e
        · by_cases hu : m.shouldUpdateRRset d e
          · rw [if_pos hm, if_pos hu] at hP
            simpa using List.mem_cons.mp hP
          · rw [if_pos hm, if_neg hu] at hP
            exact Or.inr hP
        · rw [if_neg hm] at hP
          exact Or.inr hP
    rcases step with h | h
    · exact ⟨(key, d), List.mem_cons_self .., h⟩
    · obtain ⟨p, hp, hPp⟩ := ih P h
      exact ⟨p, List.mem_cons_of_mem _ hp, hPp⟩

theorem mem_diffOrphans_patch (m : Manager) (desired : List (String × PowerDNS.RRset)) :
    ∀ (existingByKey : List (String × PowerDNS.RRset)) (P : PowerDNS.RRset),
      P ∈ (m.diffOrphans desired existingByKey).1 →
      P.changeType = "DELETE" ∧
      ∃ p ∈ existingByKey, P = ⟨p.2.name, p.2.typ, "DELETE", [], [], 0⟩ := by
  intro existingByKey
  induction existingByKey with
  | nil => simp [Manager.diffOrphans]
  | cons kv rest ih =>
    intro P hP
    obtain ⟨key, ex⟩ := kv
    have step : P = PowerDNS.RRset.mk ex.name ex.typ "DELETE" [] [] 0 ∨
        P ∈ (m.diffOrphans desired rest).1 := by
      by_cases hm : m.isManaged ex
      · rcases hfind : alistFind? desired key with _ | dd
        · rw [diffOrphans_cons_managed_orphan m rest hm hfind] at hP
          simpa using List.mem_cons.mp hP
        · rw [diffOrphans_cons_managed_desired m rest hm hfind] at hP
          exact Or.inr hP
      · rw [diffOrphans_cons_unmanaged m desired rest (by simpa using hm)] at hP
        exact Or.inr hP
    rcases step with h | h
    · exact ⟨by rw [h], (key, ex), List.mem_cons_self .., h⟩
    · obtain ⟨h1, p, hp, hPp⟩ := ih P h
      exact ⟨h1, p, List.mem_cons_of_mem _ hp, hPp⟩

theorem isManaged_createRRsetPatch (m : Manager) (d : PowerDNS.RRset) :
    m.isManaged (m.createRRsetPatch d) = true := by
  simp [Manager.isManaged, Manager.createRRsetPatch]

/-- **C9.** Every `REPLACE` entry the diff emits (creates and updates alike)
carries exactly one comment, whose account is the configured account name
and whose content is "Managed by zone-manager"; in particular the entry
satisfies the ownership predicate `isManaged`, so the record set it writes
is managed on the next run. -/
theorem replace_patch_is_managed (m : Manager)
    (desired existingByKey : List (String × PowerDNS.RRset)) (P : PowerDNS.RRset)
    (hP : P ∈ (m.diffDesired existingByKey desired).1 ++ (m.diffOrphans desired existingByKey).1)
    (hrep : P.changeType = "REPLACE") :
    P.comments = [⟨"Managed by zone-manager", m.accountName⟩] ∧
    m.isManaged P = true := by
  rcases List.mem_append.mp hP with h | h
  · obtain ⟨p, _, rfl⟩ := mem_diffDesired_patch m existingByKey desired P h
    exact ⟨rfl, isManaged_createRRsetPatch m p.2⟩
  · obtain ⟨h1, _, _, rfl⟩ := mem_diffOrphans_patch m desired existingByKey P h
    simp at hrep

/-- Witness for C9 at a concrete diff: creating `w8RRset` into an empty
zone emits a REPLACE entry carrying the ownership comment. -/
theorem replace_patch_is_managed_witness :
    wMgr.createRRsetPatch w8RRset ∈
      (wMgr.diffDesired [] [("www.example.com./A", w8RRset)]).1 ++
        (wMgr.diffOrphans [("www.example.com./A", w8RRset)] []).1 ∧
    (wMgr.createRRsetPatch w8RRset).comments =
      [⟨"Managed by zone-manager", wMgr.accountName⟩] ∧
    wMgr.isManaged (wMgr.createRRsetPatch w8RRset) = true := by
  have hmem : wMgr.createRRsetPatch w8RRset ∈
      (wMgr.diffDesired [] [("www.example.com./A", w8RRset)]).1 ++
        (wMgr.diffOrphans [("www.example.com./A", w8RRset)] []).1 := by
    simp [Manager.diffDesired, Manager.diffOrphans, alistFind?]
  exact ⟨hmem, replace_patch_is_managed wMgr [("www.example.com./A", w8RRset)] []
    (wMgr.createRRsetPatch w8RRset) hmem rfl⟩

/-! ### C1: unmanaged record sets are never touched -/

theorem nodupKeys_foldl_alistUpsert {α β : Type} (f : β → String) (g : β → α) :
    ∀ (rs : List β) (acc : List (String × α)),
      (acc.map Prod.fst).Nodup →
      (((rs.foldl (fun acc r => alistUpsert acc (f r) (g r)) acc)).map Prod.fst).Nodup := by
  intro rs
  induction rs with
  | nil => exact fun acc h => h
  | cons r rest ih => exact fun acc h => ih _ (nodupKeys_alistUpsert h)

theorem buildKeyMap_wellformed {rrsets : List PowerDNS.RRset} {k : String}
    {e : PowerDNS.RRset} (h : (k, e) ∈ buildKeyMap rrsets) :
    k = rrsetKey e.name e.typ := by
  unfold buildKeyMap at h
  rcases mem_foldl_alistUpsert (fun r : PowerDNS.RRset => rrsetKey r.name r.typ)
      (fun r => r) rrsets [] (k, e) h with h | ⟨r, _, hr⟩
  · simp at h
  · obtain ⟨h1, h2⟩ := Prod.mk.injEq .. ▸ hr
    exact h2 ▸ h1

theorem buildKeyMap_nodupKeys (rrsets : List PowerDNS.RRset) :
    ((buildKeyMap rrsets).map Prod.fst).Nodup :=
  nodupKeys_foldl_alistUpsert _ _ rrsets [] (by simp)

theorem buildDesired_hrs {m : Manager} {zoneID : String} {cfg : Config.Zone}
    {state : Config.ZoneState} {desired : List (String × PowerDNS.RRset)}
    (hok : m.buildDesiredRRsets zoneID cfg state = .ok desired) :
    ∃ rs, cfg.NormalizeRRsets = .ok rs := by
  rcases h : cfg.NormalizeRRsets with e | rs
  · rw [Manager.buildDesiredRRsets, h] at hok
    exact absurd hok (by simp [Except.bind])
  · exact ⟨rs, rfl⟩

theorem desired_wellformed {m : Manager} {zoneID : String} {cfg : Config.Zone}
    {state : Config.ZoneState} {desired : List (String × PowerDNS.RRset)}
    (hok : m.buildDesiredRRsets zoneID cfg state = .ok desired)
    {k : String} {d : PowerDNS.RRset} (h : (k, d) ∈ desired) :
    k = rrsetKey d.name d.typ := by
  obtain ⟨rs, hrs⟩ := buildDesired_hrs hok
  rcases buildDesired_mem m zoneID cfg state hrs hok h with h | ⟨r, _, h⟩
  · obtain ⟨h1, h2⟩ := Prod.mk.injEq .. ▸ h
    rw [h1, h2]
    rfl
  · obtain ⟨h1, h2⟩ := Prod.mk.injEq .. ▸ h
    rw [h1, h2]
    rfl

theorem desired_nodupKeys {m : Manager} {zoneID : String} {cfg : Config.Zone}
    {state : Config.ZoneState} {desired : List (String × PowerDNS.RRset)}
    (hok : m.buildDesiredRRsets zoneID cfg state = .ok desired) :
    (desired.map Prod.fst).Nodup := by
  obtain ⟨rs, hrs⟩ := buildDesired_hrs hok
  rw [buildDesiredRRsets_eq m zoneID cfg state hrs] at hok
  obtain rfl := (Except.ok.injEq .. ▸ hok : _ = desired)
  apply nodupKeys_foldl_alistUpsert
  split
  · split
    · simp
    · simp
  · simp

theorem mem_diffDesired_patch_cond (m : Manager)
    (existingByKey : List (String × PowerDNS.RRset)) :
    ∀ (desired : List (String × PowerDNS.RRset)) (P : PowerDNS.RRset),
      P ∈ (m.diffDesired existingByKey desired).1 →
      ∃ k d, (k, d) ∈ desired ∧ P = m.createRRsetPatch d ∧
        (alistFind? existingByKey k = none ∨
         ∃ e, alistFind? existingByKey k = some e ∧ m.isManaged e = true ∧
           m.shouldUpdateRRset d e = true) := by
  intro desired
  induction desired with
  | nil => simp [Manager.diffDesired]
  | cons kv rest ih =>
    intro P hP
    obtain ⟨key, d⟩ := kv
    have step : (P = m.createRRsetPatch d ∧
        (alistFind? existingByKey key = none ∨
         ∃ e, alistFind? existingByKey key = some e ∧ m.isManaged e = true ∧
           m.shouldUpdateRRset d e = true)) ∨
        P ∈ (m.diffDesired existingByKey rest).1 := by
      rcases hfind : alistFind? existingByKey key with _ | e
      · rw [diffDesired_cons_none m d rest hfind] at hP
        rcases List.mem_cons.mp hP with h | h
        · exact Or.inl ⟨h, Or.inl rfl⟩
        · exact Or.inr h
      · rw [diffDesired_cons_some m d rest hfind] at hP
        by_cases hm : m.isManaged e
        · by_cases hu : m.shouldUpdateRRset d e
          · rw [if_pos hm, if_pos hu] at hP
            rcases List.mem_cons.mp hP with h | h
            · exact Or.inl ⟨h, Or.inr ⟨e, rfl, hm, hu⟩⟩
            · exact Or.inr h
          · rw [if_pos hm, if_neg hu] at hP
            exact Or.inr hP
        · rw [if_neg hm] at hP
          exact Or.inr hP
    rcases step with ⟨h1, h2⟩ | h
    · exact ⟨key, d, List.mem_cons_self .., h1, h2⟩
    · obtain ⟨k, d', hmem, hPp, hcond⟩ := ih P h
      exact ⟨k, d', List.mem_cons_of_mem _ hmem, hPp, hcond⟩

theorem mem_diffOrphans_patch_cond (m : Manager)
    (desired : List (String × PowerDNS.RRset)) :
    ∀ (existingByKey : List (String × PowerDNS.RRset)) (P : PowerDNS.RRset),
      P ∈ (m.diffOrphans desired existingByKey).1 →
      ∃ k e, (k, e) ∈ existingByKey ∧ P = ⟨e.name, e.typ, "DELETE", [], [], 0⟩ ∧
        m.isManaged e = true ∧ alistFind? desired k = none := by
  intro existingByKey
  induction existingByKey with
  | nil => simp [Manager.diffOrphans]
  | cons kv rest ih =>
    intro P hP
    obtain ⟨key, ex⟩ := kv
    have step : (P = PowerDNS.RRset.mk ex.name ex.typ "DELETE" [] [] 0 ∧
        m.isManaged ex = true ∧ alistFind? desired key = none) ∨
        P ∈ (m.diffOrphans desired rest).1 := by
      by_cases hm : m.isManaged ex
      · rcases hfind : alistFind? desired key with _ | dd
        · rw [diffOrphans_cons_managed_orphan m rest hm hfind] at hP
          rcases List.mem_cons.mp hP with h | h
          · exact Or.inl ⟨h, hm, rfl⟩
          · exact Or.inr h
        · rw [diffOrphans_cons_managed_desired m rest hm hfind] at hP
          exact Or.inr hP
      · rw [diffOrphans_cons_unmanaged m desired rest (by simpa using hm)] at hP
        exact Or.inr hP
    rcases step with ⟨h1, h2, h3⟩ | h
    · exact ⟨key, ex, List.mem_cons_self .., h1, h2, h3⟩
    · obtain ⟨k, e', hmem, hPp, hcond⟩ := ih P h
      exact ⟨k, e', List.mem_cons_of_mem _ hmem, hPp, hcond⟩

/-- **C1.** In a zone reconciliation (desired state built by
`buildDesiredRRsets`, existing state indexed from the fetched zone), every
patch entry addresses a key that is either absent from the existing map (a
`REPLACE` creating a new record set) or maps to a *managed* existing record
set; consequently an unmanaged existing record set is never named by any
patch entry — it is skipped when its key is desired and left alone when it
is not. -/
theorem unmanaged_frame (m : Manager) (zoneID : String) (cfg : Config.Zone)
    (state : Config.ZoneState) (zone : PowerDNS.Zone)
    (desired : List (String × PowerDNS.RRset))
    (hok : m.buildDesiredRRsets zoneID cfg state = .ok desired) :
    (∀ P ∈ (m.diffDesired (buildKeyMap zone.rrsets) desired).1 ++
           (m.diffOrphans desired (buildKeyMap zone.rrsets)).1,
      (alistFind? (buildKeyMap zone.rrsets) (rrsetKey P.name P.typ) = none ∧
         P.changeType = "REPLACE") ∨
      (∃ e, alistFind? (buildKeyMap zone.rrsets) (rrsetKey P.name P.typ) = some e ∧
         m.isManaged e = true)) ∧
    (∀ k₀ e₀, (k₀, e₀) ∈ buildKeyMap zone.rrsets → m.isManaged e₀ = false →
      ∀ P ∈ (m.diffDesired (buildKeyMap zone.rrsets) desired).1 ++
            (m.diffOrphans desired (buildKeyMap zone.rrsets)).1,
        rrsetKey P.name P.typ ≠ k₀) := by
  have main : ∀ P ∈ (m.diffDesired (buildKeyMap zone.rrsets) desired).1 ++
      (m.diffOrphans desired (buildKeyMap zone.rrsets)).1,
      (alistFind? (buildKeyMap zone.rrsets) (rrsetKey P.name P.typ) = none ∧
         P.changeType = "REPLACE") ∨
      (∃ e, alistFind? (buildKeyMap zone.rrsets) (rrsetKey P.name P.typ) = some e ∧
         m.isManaged e = true) := by
    intro P hP
    rcases List.mem_append.mp hP with h | h
    · obtain ⟨k, d, hmem, rfl, hcond⟩ := mem_diffDesired_patch_cond m _ desired P h
      have hk : k = rrsetKey d.name d.typ := desired_wellformed hok hmem
      have hkey : rrsetKey (m.createRRsetPatch d).name (m.createRRsetPatch d).typ = k := by
        rw [hk]
        rfl
      rw [hkey]
      rcases hcond with h | ⟨e, hfind, hm, _⟩
      · exact Or.inl ⟨h, rfl⟩
      · exact Or.inr ⟨e, hfind, hm⟩
    · obtain ⟨k, e, hmem, rfl, hm, _⟩ := mem_diffOrphans_patch_cond m desired _ P h
      have hk : k = rrsetKey e.name e.typ := buildKeyMap_wellformed hmem
      have hfind : alistFind? (buildKeyMap zone.rrsets) k = some e :=
        alistFind?_eq_some_of_mem (buildKeyMap_nodupKeys zone.rrsets) hmem
      exact Or.inr ⟨e, by rw [show rrsetKey e.name e.typ = k from hk.symm]; exact hfind, hm⟩
  refine ⟨main, fun k₀ e₀ hmem hunman P hP hkey => ?_⟩
  have hfind : alistFind? (buildKeyMap zone.rrsets) k₀ = some e₀ :=
    alistFind?_eq_some_of_mem (buildKeyMap_nodupKeys zone.rrsets) hmem
  rcases main P hP with ⟨h1, _⟩ | ⟨e, h1, h2⟩
  · rw [hkey, hfind] at h1
    exact Option.noConfusion h1
  · rw [hkey, hfind] at h1
    obtain rfl := Option.some_inj.mp h1
    rw [hunman] at h2
    exact Bool.noConfusion h2

/-- Witness for C1: a zone holding one unmanaged record set at a desired
key; the only patch entry is the creation of the other desired key, and it
does not name the unmanaged key. -/
theorem unmanaged_frame_witness :
    rrsetKey w1P.name w1P.typ ≠ "www.example.com./A" :=
  (unmanaged_frame wMgr "example.com." w1Cfg ⟨true, true⟩ w1Zone w1Desired rfl).2
    "www.example.com./A" ⟨"www.example.com.", "A", "", [⟨"9.9.9.9", false⟩], [], 300⟩
    (by decide) rfl w1P (by decide)

/-! ### C10: counters count planned operations -/

theorem applyRRsets_counters {σ : Type} (m : Manager) (client : Client σ) (s : σ)
    (zoneID : String) (cfg : Config.Zone) (existingZone : PowerDNS.Zone)
    (state : Config.ZoneState) (opts : ApplyOptions) (result : ApplyResult) :
    (m.applyRRsets client s zoneID cfg existingZone state opts result).2.1 =
      (match m.buildDesiredRRsets zoneID cfg state with
       | .error _ => result
       | .ok desired =>
         { result with
           rrsetsCreated := result.rrsetsCreated +
             (m.diffDesired (buildKeyMap existingZone.rrsets) desired).2.1,
           rrsetsUpdated := result.rrsetsUpdated +
             (m.diffDesired (buildKeyMap existingZone.rrsets) desired).2.2,
           rrsetsDeleted := result.rrsetsDeleted +
             (m.diffOrphans desired (buildKeyMap existingZone.rrsets)).2 }) := by
  unfold Manager.applyRRsets
  rcases hbd : m.buildDesiredRRsets zoneID cfg state with e | desired
  · rfl
  · rcases hd : m.diffDesired (buildKeyMap existingZone.rrsets) desired with ⟨p1, c, u⟩
    rcases ho : m.diffOrphans desired (buildKeyMap existingZone.rrsets) with ⟨p2, d⟩
    simp only [hd, ho]
    rcases m.sendPatch client s zoneID (p1 ++ p2) opts with e | s' <;> rfl

/-- **C10.** The four counters are decided entirely by the diff
classification, before any patch is sent: processing the same zone against
clients that differ arbitrarily in their `PatchZone` behaviour and under
any auto-confirm setting (so the patch may succeed, fail with a backend
error, or be aborted by a declined confirmation) yields identical counter
values, as long as zone creation answers identically. -/
theorem counters_planned {σ : Type} (m : Manager) (c₁ c₂ : Client σ) (s₁ s₂ : σ)
    (zoneID : String) (zoneConfig : Config.Zone) (state : Config.ZoneState)
    (existingZone : Option PowerDNS.Zone) (dr a₁ a₂ : Bool) (result : ApplyResult)
    (hcreate : ∀ z, (c₁.createZone s₁ z).map Prod.fst =
                    (c₂.createZone s₂ z).map Prod.fst) :
    countersOf (m.applyZone c₁ s₁ zoneID zoneConfig state existingZone
      ⟨dr, a₁⟩ result).2.1 =
    countersOf (m.applyZone c₂ s₂ zoneID zoneConfig state existingZone
      ⟨dr, a₂⟩ result).2.1 := by
  unfold Manager.applyZone
  by_cases hex : state.exists_
  · simp only [hex, Bool.not_true, Bool.false_eq_true, if_false, if_neg]
    rw [applyRRsets_counters, applyRRsets_counters]
  · have hex' : state.exists_ = false := by simpa using hex
    simp only [hex', Bool.not_false, if_pos, if_true]
    by_cases hdr : dr
    · subst hdr
      simp only [ApplyOptions.dryRun, Bool.not_true, Bool.false_eq_true, if_false]
      rw [applyRRsets_counters, applyRRsets_counters]
    · have hdr' : dr = false := by simpa using hdr
      subst hdr'
      simp only [ApplyOptions.dryRun, Bool.not_false, if_true]
      have h := hcreate
        { name := zoneID, kind := zoneConfig.kind, account := m.accountName,
          nameservers := m.normalizeNameservers zoneConfig.nameservers zoneID,
          rrsets := [] }
      rcases h1 : c₁.createZone s₁
        { name := zoneID, kind := zoneConfig.kind, account := m.accountName,
          nameservers := m.normalizeNameservers zoneConfig.nameservers zoneID,
          rrsets := [] } with e₁ | z₁
      · rw [h1] at h
        rcases h2 : c₂.createZone s₂
          { name := zoneID, kind := zoneConfig.kind, account := m.accountName,
            nameservers := m.normalizeNameservers zoneConfig.nameservers zoneID,
            rrsets := [] } with e₂ | z₂
        · rfl
        · rw [h2] at h
          exact absurd h (by simp [Except.map])
      · rw [h1] at h
        rcases h2 : c₂.createZone s₂
          { name := zoneID, kind := zoneConfig.kind, account := m.accountName,
            nameservers := m.normalizeNameservers zoneConfig.nameservers zoneID,
            rrsets := [] } with e₂ | z₂
        · rw [h2] at h
          exact absurd h (by simp [Except.map])
        · rw [h2] at h
          obtain ⟨zone₁, st₁⟩ := z₁
          obtain ⟨zone₂, st₂⟩ := z₂
          have hz : zone₁ = zone₂ := by simpa [Except.map] using h
          subst hz
          rw [applyRRsets_counters, applyRRsets_counters]

/-- Witness for C10: creating a zone with two record sets; the client that
applies the patch and the client whose patch is rejected (under a declined
confirmation) report the same counters. -/
theorem counters_planned_witness :
    countersOf (w8Mgr.applyZone memClient ([] : MemState) "example.com."
      w1Cfg ⟨false, false⟩ none ⟨false, true⟩
      ⟨[], 0, 0, 0, 0⟩).2.1 =
    countersOf (w8Mgr.applyZone wFailPatchClient ([] : MemState) "example.com."
      w1Cfg ⟨false, false⟩ none ⟨false, false⟩
      ⟨[], 0, 0, 0, 0⟩).2.1 ∧
    countersOf (w8Mgr.applyZone memClient ([] : MemState) "example.com."
      w1Cfg ⟨false, false⟩ none ⟨false, true⟩
      ⟨[], 0, 0, 0, 0⟩).2.1 = (1, 2, 0, 0) := by
  refine ⟨counters_planned w8Mgr memClient wFailPatchClient [] [] "example.com."
    w1Cfg ⟨false, false⟩ none false true false ⟨[], 0, 0, 0, 0⟩ (fun z => rfl), ?_⟩
  decide

/-! ### C5: fetch failures are fatal, apply failures are collected -/

theorem fetchZones_error_ex {σ : Type} (m : Manager) (client : Client σ) (s : σ) :
    ∀ (zones : List (String × Config.Zone)) (ez : List (String × Config.ZoneState))
      (zd : List (String × PowerDNS.Zone)),
      (∃ p ∈ zones, ∃ err, client.getZone s (Config.CanonicalZoneName p.1) = .error err) →
      ∃ e, m.fetchZones client s zones ez zd = .error e := by
  intro zones
  induction zones with
  | nil => rintro ez zd ⟨p, hp, _⟩; simp at hp
  | cons q rest ih =>
    rintro ez zd ⟨p, hp, err, herr⟩
    obtain ⟨zoneName, z⟩ := q
    rcases hget : client.getZone s (Config.CanonicalZoneName zoneName) with e | r
    · exact ⟨.wrap ("failed to check zone " ++ zoneName) e, by
        unfold Manager.fetchZones
        rw [hget]⟩
    · have hrest : p ∈ rest := by
        rcases List.mem_cons.mp hp with h | h
        · subst h
          rw [hget] at herr
          exact absurd herr (by simp)
        · exact h
      rcases r with _ | zone
      · obtain ⟨e, he⟩ := ih _ _ ⟨p, hrest, err, herr⟩
        exact ⟨e, by
          unfold Manager.fetchZones
          rw [hget]
          exact he⟩
      · obtain ⟨e, he⟩ := ih _ _ ⟨p, hrest, err, herr⟩
        exact ⟨e, by
          unfold Manager.fetchZones
          rw [hget]
          exact he⟩

/-- **C5.** A fetch failure for any configured zone aborts the whole
`Apply` run with an error and leaves the client state untouched (for every
client, so no `CreateZone` or `PatchZone` is issued); once all fetches
succeed and validation passes, `Apply` always returns an `ApplyResult`
(per-zone apply failures are collected, never fatal) — demonstrated
concretely by `w5Run`, where the first zone's rejected patch is recorded as
the single error while the second zone is still fully processed. -/
theorem apply_error_phases {σ : Type} (m : Manager) (client : Client σ) (s : σ)
    (cfg : Config) (opts : ApplyOptions) :
    ((∃ p ∈ cfg.zones, ∃ err,
        client.getZone s (Config.CanonicalZoneName p.1) = .error err) →
      ∃ e, m.Apply client s cfg opts = (.error e, s)) ∧
    (∀ ez zd, m.fetchZones client s cfg.zones [] [] = .ok (ez, zd) →
      cfg.Validate ez = [] →
      ∃ r s', m.Apply client s cfg opts = (.ok r, s')) ∧
    ((w5Run.1.map fun r => (r.errors.length, r.zonesCreated, r.rrsetsCreated)) =
      .ok (1, 2, 4)) := by
  refine ⟨?_, ?_, by decide⟩
  · intro hex
    obtain ⟨e, he⟩ := fetchZones_error_ex m client s cfg.zones [] [] hex
    exact ⟨e, by
      unfold Manager.Apply
      rw [he]⟩
  · intro ez zd hfetch hval
    rcases hloop : m.applyLoop client ez zd opts cfg.zones s ⟨[], 0, 0, 0, 0⟩ with ⟨r, s'⟩
    refine ⟨r, s', ?_⟩
    unfold Manager.Apply
    rw [hfetch]
    simp only [hval, hloop]

/-- Witness for C5: with a client whose every fetch fails, `Apply` aborts
with an error and no state change. -/
theorem apply_error_phases_witness :
    ∃ e, wMgr.Apply w5FailFetch ([] : MemState) w5Cfg ⟨false, true⟩ =
      (.error e, ([] : MemState)) :=
  (apply_error_phases wMgr w5FailFetch ([] : MemState) w5Cfg ⟨false, true⟩).1
    ⟨("a", ⟨"", ["ns1.a."], [⟨"x", "A", some (.str "1.1.1.1"), none, ""⟩]⟩),
      by decide, .msg "connection refused", rfl⟩

/-- Witness for C6 at a concrete configuration and two state maps. -/
theorem validate_nsRequired_iff_witness :
    (("example.com", w6Zone) ∈ w6Cfg.zones ∧ (w6Cfg.zones.map Prod.fst).Nodup) ∧
    (VErr.nsRequired "example.com" ∈
        w6Cfg.Validate [("example.com.", ⟨true, true⟩)] ↔
      ((Config.lookupState [("example.com.", ⟨true, true⟩)]
          (Config.CanonicalZoneName "example.com")).exists_ = false ∧
        w6Zone.nameservers = [])) := by
  refine ⟨⟨List.mem_singleton.mpr rfl, by decide⟩, ?_⟩
  exact validate_nsRequired_iff w6Cfg [("example.com.", ⟨true, true⟩)]
    "example.com" w6Zone (List.mem_singleton.mpr rfl) (by decide)

/-! ### C3: dry-run parity -/

theorem dry_sendPatch {σ : Type} (m : Manager) (client : Client σ) (s : σ)
    (zoneID : String) (ops : List PowerDNS.RRset) (a : Bool) :
    m.sendPatch client s zoneID ops ⟨true, a⟩ = .ok s := by
  unfold Manager.sendPatch
  by_cases h : (ops.length == 0) = true
  · rw [if_pos h]
  · rw [if_neg h, if_pos rfl]

theorem applyRRsets_dry {σ : Type} (m : Manager) (c₁ c₂ : Client σ) (s : σ)
    (zoneID : String) (cfg : Config.Zone) (existingZone : PowerDNS.Zone)
    (state : Config.ZoneState) (a : Bool) (result : ApplyResult) :
    m.applyRRsets c₁ s zoneID cfg existingZone state ⟨true, a⟩ result =
      m.applyRRsets c₂ s zoneID cfg existingZone state ⟨true, a⟩ result ∧
    (m.applyRRsets c₁ s zoneID cfg existingZone state ⟨true, a⟩ result).2.2 = s := by
  unfold Manager.applyRRsets
  rcases hbd : m.buildDesiredRRsets zoneID cfg state with e | desired
  · exact ⟨rfl, rfl⟩
  · rcases hd : m.diffDesired (buildKeyMap existingZone.rrsets) desired with ⟨p1, c, u⟩
    rcases ho : m.diffOrphans desired (buildKeyMap existingZone.rrsets) with ⟨p2, d⟩
    simp [dry_sendPatch]

theorem applyZone_dry {σ : Type} (m : Manager) (c₁ c₂ : Client σ) (s : σ)
    (zoneID : String) (zc : Config.Zone) (state : Config.ZoneState)
    (entry : Option PowerDNS.Zone) (a : Bool) (result : ApplyResult) :
    m.applyZone c₁ s zoneID zc state entry ⟨true, a⟩ result =
      m.applyZone c₂ s zoneID zc state entry ⟨true, a⟩ result ∧
    (m.applyZone c₁ s zoneID zc state entry ⟨true, a⟩ result).2.2 = s := by
  unfold Manager.applyZone
  by_cases hex : state.exists_
  · simp only [hex, Bool.not_true, Bool.false_eq_true, if_false]
    exact applyRRsets_dry ..
  · have hex' : state.exists_ = false := by simpa using hex
    simp only [hex', Bool.not_false, if_true, ApplyOptions.dryRun, Bool.not_true,
      Bool.false_eq_true, if_false]
    exact applyRRsets_dry ..

theorem applyLoop_dry {σ : Type} (m : Manager) (c₁ c₂ : Client σ)
    (ez : List (String × Config.ZoneState)) (zd : List (String × PowerDNS.Zone))
    (a : Bool) :
    ∀ (zones : List (String × Config.Zone)) (s : σ) (result : ApplyResult),
      m.applyLoop c₁ ez zd ⟨true, a⟩ zones s result =
        m.applyLoop c₂ ez zd ⟨true, a⟩ zones s result ∧
      (m.applyLoop c₁ ez zd ⟨true, a⟩ zones s result).2 = s := by
  intro zones
  induction zones with
  | nil => exact fun s result => ⟨rfl, rfl⟩
  | cons q rest ih =>
    intro s result
    obtain ⟨zoneName, zc⟩ := q
    obtain ⟨hzeq, hzst⟩ := applyZone_dry m c₁ c₂ s (Config.CanonicalZoneName zoneName)
      zc.NormalizeZone (Config.lookupState ez (Config.CanonicalZoneName zoneName))
      (alistFind? zd (Config.CanonicalZoneName zoneName)) a result
    unfold Manager.applyLoop
    rw [← hzeq]
    rcases hz : m.applyZone c₁ s (Config.CanonicalZoneName zoneName) zc.NormalizeZone
        (Config.lookupState ez (Config.CanonicalZoneName zoneName))
        (alistFind? zd (Config.CanonicalZoneName zoneName)) ⟨true, a⟩ result with
      ⟨res, result', s'⟩
    have hs' : s' = s := by
      rw [hz] at hzst
      exact hzst
    subst hs'
    rcases res with e | u
    · exact ih _ _
    · exact ih _ _

theorem fetchZones_getZone_congr {σ : Type} (m : Manager) (c₁ c₂ : Client σ) (s : σ)
    (hg : c₁.getZone = c₂.getZone) :
    ∀ (zones : List (String × Config.Zone)) ez zd,
      m.fetchZones c₁ s zones ez zd = m.fetchZones c₂ s zones ez zd := by
  intro zones
  induction zones with
  | nil => exact fun ez zd => rfl
  | cons q rest ih =>
    intro ez zd
    obtain ⟨zoneName, zc⟩ := q
    unfold Manager.fetchZones
    rw [hg]
    rcases c₂.getZone s (Config.CanonicalZoneName zoneName) with e | r
    · rfl
    · rcases r with _ | zone
      · exact ih ..
      · exact ih ..

theorem applyZone_counters_mem (m : Manager) (s : MemState) (zoneID : String)
    (zc : Config.Zone) (st : Config.ZoneState) (entry : Option PowerDNS.Zone)
    (dr a : Bool) (r : ApplyResult) :
    countersOf (m.applyZone memClient s zoneID zc st entry ⟨dr, a⟩ r).2.1 =
      (r.zonesCreated + (plannedCounters m zoneID zc st entry).1,
       r.rrsetsCreated + (plannedCounters m zoneID zc st entry).2.1,
       r.rrsetsUpdated + (plannedCounters m zoneID zc st entry).2.2.1,
       r.rrsetsDeleted + (plannedCounters m zoneID zc st entry).2.2.2) := by
  by_cases hex : st.exists_
  · simp only [Manager.applyZone, hex, Bool.not_true, Bool.false_eq_true, if_false]
    rw [applyRRsets_counters]
    rcases hbd : m.buildDesiredRRsets zoneID zc st with e | desired <;>
      simp [plannedCounters, countersOf, hbd, hex]
  · have hex' : st.exists_ = false := by simpa using hex
    by_cases hdr : dr
    · subst hdr
      simp only [Manager.applyZone, hex', Bool.not_false, if_true, Bool.not_true,
        Bool.false_eq_true, if_false]
      rw [applyRRsets_counters]
      rcases hbd : m.buildDesiredRRsets zoneID zc st with e | desired <;>
        simp [plannedCounters, countersOf, hbd, hex']
    · have hdr' : dr = false := by simpa using hdr
      subst hdr'
      simp only [Manager.applyZone, hex', Bool.not_false, if_true, memClient]
      rw [applyRRsets_counters]
      rcases hbd : m.buildDesiredRRsets zoneID zc st with e | desired <;>
        simp [plannedCounters, countersOf, hbd, hex']

theorem applyLoop_counters_parity (m : Manager)
    (ez : List (String × Config.ZoneState)) (zd : List (String × PowerDNS.Zone))
    (a a' : Bool) :
    ∀ (zones : List (String × Config.Zone)) (sR sD : MemState) (rR rD : ApplyResult),
      countersOf rR = countersOf rD →
      countersOf (m.applyLoop memClient ez zd ⟨false, a⟩ zones sR rR).1 =
      countersOf (m.applyLoop memClient ez zd ⟨true, a'⟩ zones sD rD).1 := by
  intro zones
  induction zones with
  | nil => exact fun sR sD rR rD h => h
  | cons q rest ih =>
    intro sR sD rR rD h
    obtain ⟨zoneName, zc⟩ := q
    unfold Manager.applyLoop
    rcases hR : m.applyZone memClient sR (Config.CanonicalZoneName zoneName)
        zc.NormalizeZone (Config.lookupState ez (Config.CanonicalZoneName zoneName))
        (alistFind? zd (Config.CanonicalZoneName zoneName)) ⟨false, a⟩ rR with
      ⟨resR, rR', sR'⟩
    rcases hD : m.applyZone memClient sD (Config.CanonicalZoneName zoneName)
        zc.NormalizeZone (Config.lookupState ez (Config.CanonicalZoneName zoneName))
        (alistFind? zd (Config.CanonicalZoneName zoneName)) ⟨true, a'⟩ rD with
      ⟨resD, rD', sD'⟩
    have hctr : countersOf rR' = countersOf rD' := by
      have h1 := applyZone_counters_mem m sR (Config.CanonicalZoneName zoneName)
        zc.NormalizeZone (Config.lookupState ez (Config.CanonicalZoneName zoneName))
        (alistFind? zd (Config.CanonicalZoneName zoneName)) false a rR
      have h2 := applyZone_counters_mem m sD (Config.CanonicalZoneName zoneName)
        zc.NormalizeZone (Config.lookupState ez (Config.CanonicalZoneName zoneName))
        (alistFind? zd (Config.CanonicalZoneName zoneName)) true a' rD
      rw [hR] at h1
      rw [hD] at h2
      simp only [countersOf, Prod.mk.injEq] at h
      rw [h1, h2, h.1, h.2.1, h.2.2.1, h.2.2.2]
    rcases resR with eR | uR <;> rcases resD with eD | uD
    · exact ih _ _ _ _ hctr
    · exact ih _ _ _ _ hctr
    · exact ih _ _ _ _ hctr
    · exact ih _ _ _ _ hctr

/-- **C3.** Dry-run parity: against the in-memory backend and identical
starting state, a dry-run `Apply` and a real `Apply` report identical
counters (`ZonesCreated`, `RRsetsCreated`, `RRsetsUpdated`,
`RRsetsDeleted`); a dry-run leaves every client's state untouched and its
outcome does not depend on the client's `CreateZone`/`PatchZone`
implementations at all (only `GetZone` is consulted) — i.e. the dry run
issues no mutating call. -/
theorem dry_run_parity {σ : Type} (m : Manager) (cfg : Config) (s0 : MemState)
    (client c₁ c₂ : Client σ) (sg : σ) (a : Bool) (hg : c₁.getZone = c₂.getZone) :
    ((m.Apply memClient s0 cfg ⟨true, a⟩).1.map countersOf =
      (m.Apply memClient s0 cfg ⟨false, a⟩).1.map countersOf) ∧
    ((m.Apply client sg cfg ⟨true, a⟩).2 = sg) ∧
    (m.Apply c₁ sg cfg ⟨true, a⟩ = m.Apply c₂ sg cfg ⟨true, a⟩) := by
  refine ⟨?_, ?_, ?_⟩
  · unfold Manager.Apply
    rcases hf : m.fetchZones memClient s0 cfg.zones [] [] with e | p
    · rfl
    · obtain ⟨ez, zd⟩ := p
      rcases hv : cfg.Validate ez with _ | ⟨v, vs⟩
      · rcases hlD : m.applyLoop memClient ez zd ⟨true, a⟩ cfg.zones s0
          ⟨[], 0, 0, 0, 0⟩ with ⟨rD, sD⟩
        rcases hlR : m.applyLoop memClient ez zd ⟨false, a⟩ cfg.zones s0
          ⟨[], 0, 0, 0, 0⟩ with ⟨rR, sR⟩
        simp only [hv, hlD, hlR, Except.map]
        have := applyLoop_counters_parity m ez zd a a cfg.zones s0 s0
          ⟨[], 0, 0, 0, 0⟩ ⟨[], 0, 0, 0, 0⟩ rfl
        rw [hlD, hlR] at this
        rw [this]
      · simp only [hv]
  · unfold Manager.Apply
    rcases hf : m.fetchZones client sg cfg.zones [] [] with e | p
    · rfl
    · obtain ⟨ez, zd⟩ := p
      rcases hv : cfg.Validate ez with _ | ⟨v, vs⟩
      · rcases hl : m.applyLoop client ez zd ⟨true, a⟩ cfg.zones sg
          ⟨[], 0, 0, 0, 0⟩ with ⟨rr, ss⟩
        have hstate := (applyLoop_dry m client client ez zd a cfg.zones sg
          ⟨[], 0, 0, 0, 0⟩).2
        rw [hl] at hstate
        simp only [hv, hl]
        exact hstate
      · simp only [hv]
  · unfold Manager.Apply
    rw [fetchZones_getZone_congr m c₁ c₂ sg hg cfg.zones [] []]
    rcases hf : m.fetchZones c₂ sg cfg.zones [] [] with e | p
    · rfl
    · obtain ⟨ez, zd⟩ := p
      rcases hv : cfg.Validate ez with _ | ⟨v, vs⟩
      · simp only [hv]
        rw [(applyLoop_dry m c₁ c₂ ez zd a cfg.zones sg ⟨[], 0, 0, 0, 0⟩).1]
      · simp only [hv]

/-- Witness for C3 at a concrete configuration: parity of counters, no
state change under dry-run, and client-independence of the dry run. -/
theorem dry_run_parity_witness :
    ((wMgr.Apply memClient ([] : MemState) w5Cfg ⟨true, true⟩).1.map countersOf =
      (wMgr.Apply memClient ([] : MemState) w5Cfg ⟨false, true⟩).1.map countersOf) ∧
    ((wMgr.Apply memClient ([] : MemState) w5Cfg ⟨true, true⟩).2 = []) ∧
    (wMgr.Apply memClient ([] : MemState) w5Cfg ⟨true, true⟩ =
      wMgr.Apply wFailPatchClient ([] : MemState) w5Cfg ⟨true, true⟩) :=
  dry_run_parity wMgr w5Cfg [] memClient memClient wFailPatchClient [] true rfl

/-! ### C2: infrastructure — key maps and patch application -/

theorem alistFind?_eq_none_iff {α : Type} {l : List (String × α)} {k : String} :
    alistFind? l k = none ↔ k ∉ l.map Prod.fst := by
  induction l with
  | nil => simp [alistFind?_nil]
  | cons q rest ih =>
    obtain ⟨k', v⟩ := q
    rw [alistFind?_cons]
    by_cases h : k' = k
    · simp [h]
    · simp [h, ih, Ne.symm h]

theorem alistFind?_buildKeyMap_eq_findByKey (rrsets : List PowerDNS.RRset) (k : String) :
    alistFind? (buildKeyMap rrsets) k = findByKey rrsets k := by
  suffices h : ∀ (rs : List PowerDNS.RRset) (acc : List (String × PowerDNS.RRset)),
      alistFind? (rs.foldl (fun acc r => alistUpsert acc (rrsetKey r.name r.typ) r) acc) k =
        match findByKey rs k with
        | some r => some r
        | none => alistFind? acc k by
    have := h rrsets []
    rw [buildKeyMap, this]
    rcases findByKey rrsets k with _ | r
    · rfl
    · rfl
  intro rs
  induction rs with
  | nil => intro acc; rfl
  | cons r rest ih =>
    intro acc
    rw [List.foldl_cons, ih]
    rcases hrest : findByKey rest k with _ | r'
    · unfold findByKey
      rw [hrest]
      by_cases hk : rrsetKey r.name r.typ = k
      · simp only [hk, beq_self_eq_true, if_pos]
        exact hk ▸ alistFind?_upsert_self ..
      · simp only [beq_iff_eq, hk, if_neg, if_false]
        exact alistFind?_upsert_other _ _ _ _ (Ne.symm hk)
    · unfold findByKey
      rw [hrest]

theorem findByKey_append_single (l : List PowerDNS.RRset) (x : PowerDNS.RRset)
    (k : String) :
    findByKey (l ++ [x]) k =
      if rrsetKey x.name x.typ = k then some x else findByKey l k := by
  induction l with
  | nil =>
    unfold findByKey findByKey
    simp [beq_iff_eq]
  | cons r rest ih =>
    show findByKey (r :: (rest ++ [x])) k = _
    unfold findByKey
    rw [ih]
    by_cases hk : rrsetKey x.name x.typ = k
    · rw [if_pos hk, if_pos hk]
    · rw [if_neg hk, if_neg hk]

theorem findByKey_cons_none {rest : List PowerDNS.RRset} {k : String}
    (r : PowerDNS.RRset) (h : findByKey rest k = none) :
    findByKey (r :: rest) k =
      if rrsetKey r.name r.typ == k then some r else none := by
  unfold findByKey
  rw [h]

theorem findByKey_cons_some {rest : List PowerDNS.RRset} {k : String}
    (r : PowerDNS.RRset) {r' : PowerDNS.RRset} (h : findByKey rest k = some r') :
    findByKey (r :: rest) k = some r' := by
  unfold findByKey
  rw [h]

theorem findByKey_filter_ne (rrsets : List PowerDNS.RRset) (k0 k : String) :
    findByKey (rrsets.filter fun r => rrsetKey r.name r.typ != k0) k =
      if k = k0 then none else findByKey rrsets k := by
  induction rrsets with
  | nil => simp [findByKey]
  | cons r rest ih =>
    by_cases hr : rrsetKey r.name r.typ = k0
    · rw [List.filter_cons_of_neg (by simp [hr]), ih]
      by_cases hk : k = k0
      · rw [if_pos hk, if_pos hk]
      · rw [if_neg hk, if_neg hk]
        rcases hrb : findByKey rest k with _ | r'
        · rw [findByKey_cons_none r hrb, if_neg]
          simp only [beq_iff_eq]
          rw [hr]
          exact fun he => hk he.symm
        · rw [findByKey_cons_some r hrb]
    · rw [List.filter_cons_of_pos (by simp [hr])]
      rcases hrb : findByKey (rest.filter fun x => rrsetKey x.name x.typ != k0) k
        with _ | r'
      · rw [findByKey_cons_none r hrb]
        rw [ih] at hrb
        by_cases hk : k = k0
        · rw [if_pos hk, if_neg]
          simp only [beq_iff_eq]
          rw [hk]
          exact hr
        · rw [if_neg hk] at hrb
          rw [if_neg hk, findByKey_cons_none r hrb]
      · rw [findByKey_cons_some r hrb]
        rw [ih] at hrb
        by_cases hk : k = k0
        · rw [if_pos hk] at hrb
          exact absurd hrb (by simp)
        · rw [if_neg hk] at hrb
          rw [if_neg hk, findByKey_cons_some r hrb]

theorem findByKey_applyRRsetOp (rrsets : List PowerDNS.RRset) (op : PowerDNS.RRset)
    (k : String) :
    findByKey (applyRRsetOp rrsets op) k =
      if opKey op = k then
        (if op.changeType == "DELETE" then none
         else some { op with changeType := "" })
      else findByKey rrsets k := by
  unfold applyRRsetOp
  by_cases hdel : (op.changeType == "DELETE") = true
  · rw [if_pos hdel, findByKey_filter_ne]
    by_cases hk : opKey op = k
    · rw [if_pos (show k = rrsetKey op.name op.typ from hk.symm), if_pos hk,
        if_pos hdel]
    · rw [if_neg (fun he => hk he.symm), if_neg hk]
  · rw [if_neg hdel, findByKey_append_single, findByKey_filter_ne]
    by_cases hk : opKey op = k
    · have hk' : rrsetKey ({ op with changeType := "" } : PowerDNS.RRset).name
          ({ op with changeType := "" } : PowerDNS.RRset).typ = k := hk
      rw [if_pos hk', if_pos hk, if_neg hdel]
    · have hk' : ¬ rrsetKey ({ op with changeType := "" } : PowerDNS.RRset).name
          ({ op with changeType := "" } : PowerDNS.RRset).typ = k := hk
      rw [if_neg hk', if_neg (fun he => hk he.symm), if_neg hk]

theorem findByKey_applyPatchOps (ops : List PowerDNS.RRset) :
    ∀ (rrsets : List PowerDNS.RRset) (k : String),
      (ops.map opKey).Nodup →
      findByKey (applyPatchOps rrsets ops) k =
        match ops.find? (fun op => opKey op == k) with
        | some op => if op.changeType == "DELETE" then none
                     else some { op with changeType := "" }
        | none => findByKey rrsets k := by
  induction ops with
  | nil => intro rrsets k _; rfl
  | cons op rest ih =>
    intro rrsets k hnd
    simp only [List.map_cons, List.nodup_cons] at hnd
    show findByKey (applyPatchOps (applyRRsetOp rrsets op) rest) k = _
    rw [ih _ k hnd.2]
    by_cases hk : opKey op = k
    · have hfind : rest.find? (fun op => opKey op == k) = none := by
        rw [List.find?_eq_none]
        intro x hx
        simp only [beq_iff_eq]
        intro he
        exact hnd.1 (List.mem_map.mpr ⟨x, hx, he.trans hk.symm⟩)
      rw [hfind, List.find?_cons_of_pos _ (by simp [hk]), findByKey_applyRRsetOp,
        if_pos hk]
    · rw [List.find?_cons_of_neg _ (by simp [hk])]
      rcases hfind : rest.find? (fun op => opKey op == k) with _ | op'
      · rw [findByKey_applyRRsetOp, if_neg hk]
      · rfl

/-! ### C2: infrastructure — diff classification lemmas -/

theorem diffDesired_patch_mono (m : Manager) (ex : List (String × PowerDNS.RRset))
    (kv : String × PowerDNS.RRset) (rest : List (String × PowerDNS.RRset))
    {P : PowerDNS.RRset} (h : P ∈ (m.diffDesired ex rest).1) :
    P ∈ (m.diffDesired ex (kv :: rest)).1 := by
  obtain ⟨k, d⟩ := kv
  rcases hfind : alistFind? ex k with _ | e
  · rw [diffDesired_cons_none m d rest hfind]
    exact List.mem_cons_of_mem _ h
  · rw [diffDesired_cons_some m d rest hfind]
    by_cases hm : m.isManaged e
    · by_cases hu : m.shouldUpdateRRset d e
      · rw [if_pos hm, if_pos hu]
        exact List.mem_cons_of_mem _ h
      · rw [if_pos hm, if_neg hu]
        exact h
    · rw [if_neg hm]
      exact h

theorem diffOrphans_patch_mono (m : Manager) (desired : List (String × PowerDNS.RRset))
    (kv : String × PowerDNS.RRset) (rest : List (String × PowerDNS.RRset))
    {P : PowerDNS.RRset} (h : P ∈ (m.diffOrphans desired rest).1) :
    P ∈ (m.diffOrphans desired (kv :: rest)).1 := by
  obtain ⟨k, e⟩ := kv
  by_cases hm : m.isManaged e
  · rcases hfind : alistFind? desired k with _ | d
    · rw [diffOrphans_cons_managed_orphan m rest hm hfind]
      exact List.mem_cons_of_mem _ h
    · rw [diffOrphans_cons_managed_desired m rest hm hfind]
      exact h
  · rw [diffOrphans_cons_unmanaged m desired rest (by simpa using hm)]
    exact h

theorem diffDesired_zero (m : Manager) (ex : List (String × PowerDNS.RRset)) :
    ∀ desired : List (String × PowerDNS.RRset),
      (∀ p ∈ desired, ∃ e, alistFind? ex p.1 = some e ∧
        (m.isManaged e = false ∨ m.shouldUpdateRRset p.2 e = false)) →
      m.diffDesired ex desired = ([], 0, 0) := by
  intro desired
  induction desired with
  | nil => intro _; rfl
  | cons kv rest ih =>
    intro h
    obtain ⟨k, d⟩ := kv
    obtain ⟨e, hfind, hcond⟩ := h (k, d) (List.mem_cons_self ..)
    have htail := ih fun p hp => h p (List.mem_cons_of_mem _ hp)
    rw [diffDesired_cons_some m d rest hfind]
    rcases hcond with hm | hu
    · rw [if_neg (by simp [hm])]
      exact htail
    · by_cases hm : m.isManaged e
      · rw [if_pos hm, if_neg (by simp [hu])]
        exact htail
      · rw [if_neg hm]
        exact htail

theorem diffOrphans_zero (m : Manager) (desired : List (String × PowerDNS.RRset)) :
    ∀ ex : List (String × PowerDNS.RRset),
      (∀ p ∈ ex, m.isManaged p.2 = true → (alistFind? desired p.1).isSome) →
      m.diffOrphans desired ex = ([], 0) := by
  intro ex
  induction ex with
  | nil => intro _; rfl
  | cons kv rest ih =>
    intro h
    obtain ⟨k, e⟩ := kv
    have htail := ih fun p hp => h p (List.mem_cons_of_mem _ hp)
    by_cases hm : m.isManaged e
    · have hs := h (k, e) (List.mem_cons_self ..) hm
      obtain ⟨d, hd⟩ := Option.isSome_iff_exists.mp hs
      rw [diffOrphans_cons_managed_desired m rest hm hd]
      exact htail
    · rw [diffOrphans_cons_unmanaged m desired rest (by simpa using hm)]
      exact htail

theorem diffDesired_emits (m : Manager) (ex : List (String × PowerDNS.RRset)) :
    ∀ (desired : List (String × PowerDNS.RRset)) (k : String) (d : PowerDNS.RRset),
      (k, d) ∈ desired →
      (alistFind? ex k = none ∨
       ∃ e, alistFind? ex k = some e ∧ m.isManaged e = true ∧
         m.shouldUpdateRRset d e = true) →
      m.createRRsetPatch d ∈ (m.diffDesired ex desired).1 := by
  intro desired
  induction desired with
  | nil => intro k d hmem; simp at hmem
  | cons kv rest ih =>
    intro k d hmem hcond
    rcases List.mem_cons.mp hmem with he | hmem'
    · obtain ⟨k', d'⟩ := kv
      have hk : k = k' := congrArg Prod.fst he
      have hd : d = d' := congrArg Prod.snd he
      subst hk
      subst hd
      rcases hcond with hnone | ⟨e, hsome, hm, hu⟩
      · rw [diffDesired_cons_none m d rest hnone]
        exact List.mem_cons_self ..
      · rw [diffDesired_cons_some m d rest hsome, if_pos hm, if_pos hu]
        exact List.mem_cons_self ..
    · exact diffDesired_patch_mono m ex kv rest (ih k d hmem' hcond)

theorem diffOrphans_emits (m : Manager) (desired : List (String × PowerDNS.RRset)) :
    ∀ (ex : List (String × PowerDNS.RRset)) (k : String) (e : PowerDNS.RRset),
      (k, e) ∈ ex → m.isManaged e = true → alistFind? desired k = none →
      (⟨e.name, e.typ, "DELETE", [], [], 0⟩ : PowerDNS.RRset) ∈
        (m.diffOrphans desired ex).1 := by
  intro ex
  induction ex with
  | nil => intro k e hmem; simp at hmem
  | cons kv rest ih =>
    intro k e hmem hm hnone
    rcases List.mem_cons.mp hmem with he | hmem'
    · obtain ⟨k', e'⟩ := kv
      have hk : k = k' := congrArg Prod.fst he
      have hd : e = e' := congrArg Prod.snd he
      subst hk
      subst hd
      rw [diffOrphans_cons_managed_orphan m rest hm hnone]
      exact List.mem_cons_self ..
    · exact diffOrphans_patch_mono m desired kv rest (ih k e hmem' hm hnone)

theorem diffDesired_keys_sublist (m : Manager) (ex : List (String × PowerDNS.RRset)) :
    ∀ desired : List (String × PowerDNS.RRset),
      (∀ p ∈ desired, p.1 = rrsetKey p.2.name p.2.typ) →
      ((m.diffDesired ex desired).1.map opKey).Sublist (desired.map Prod.fst) := by
  intro desired
  induction desired with
  | nil => intro _; simp [Manager.diffDesired]
  | cons kv rest ih =>
    intro hwf
    obtain ⟨k, d⟩ := kv
    have htail := ih fun p hp => hwf p (List.mem_cons_of_mem _ hp)
    have hk : opKey (m.createRRsetPatch d) = k :=
      (hwf (k, d) (List.mem_cons_self ..)).symm
    rcases hfind : alistFind? ex k with _ | e
    · rw [diffDesired_cons_none m d rest hfind]
      simp only [List.map_cons, hk]
      exact htail.cons₂ k
    · rw [diffDesired_cons_some m d rest hfind]
      by_cases hm : m.isManaged e
      · by_cases hu : m.shouldUpdateRRset d e
        · rw [if_pos hm, if_pos hu]
          simp only [List.map_cons, hk]
          exact htail.cons₂ k
        · rw [if_pos hm, if_neg hu]
          exact htail.cons k
      · rw [if_neg hm]
        exact htail.cons k

theorem diffOrphans_keys_sublist (m : Manager) (desired : List (String × PowerDNS.RRset)) :
    ∀ ex : List (String × PowerDNS.RRset),
      (∀ p ∈ ex, p.1 = rrsetKey p.2.name p.2.typ) →
      ((m.diffOrphans desired ex).1.map opKey).Sublist (ex.map Prod.fst) := by
  intro ex
  induction ex with
  | nil => intro _; simp [Manager.diffOrphans]
  | cons kv rest ih =>
    intro hwf
    obtain ⟨k, e⟩ := kv
    have htail := ih fun p hp => hwf p (List.mem_cons_of_mem _ hp)
    have hk : opKey (⟨e.name, e.typ, "DELETE", [], [], 0⟩ : PowerDNS.RRset) = k :=
      (hwf (k, e) (List.mem_cons_self ..)).symm
    by_cases hm : m.isManaged e
    · rcases hfind : alistFind? desired k with _ | d
      · rw [diffOrphans_cons_managed_orphan m rest hm hfind]
        simp only [List.map_cons, hk]
        exact htail.cons₂ k
      · rw [diffOrphans_cons_managed_desired m rest hm hfind]
        exact htail.cons k
    · rw [diffOrphans_cons_unmanaged m desired rest (by simpa using hm)]
      exact htail.cons k

theorem patchKeys_nodup (m : Manager) (desired ex : List (String × PowerDNS.RRset))
    (hwfD : ∀ p ∈ desired, p.1 = rrsetKey p.2.name p.2.typ)
    (hndD : (desired.map Prod.fst).Nodup)
    (hwfE : ∀ p ∈ ex, p.1 = rrsetKey p.2.name p.2.typ)
    (hndE : (ex.map Prod.fst).Nodup) :
    (((m.diffDesired ex desired).1 ++ (m.diffOrphans desired ex).1).map opKey).Nodup := by
  rw [List.map_append]
  refine List.Nodup.append ((diffDesired_keys_sublist m ex desired hwfD).nodup hndD)
    ((diffOrphans_keys_sublist m desired ex hwfE).nodup hndE) ?_
  intro a ha1 ha2
  obtain ⟨op1, hop1, rfl⟩ := List.mem_map.mp ha1
  obtain ⟨op2, hop2, hkeq⟩ := List.mem_map.mp ha2
  obtain ⟨k, d, hmemD, rfl, _⟩ := mem_diffDesired_patch_cond m ex desired op1 hop1
  obtain ⟨k', e, hmemE, rfl, _, hnone⟩ := mem_diffOrphans_patch_cond m desired ex op2 hop2
  have h1 : opKey (m.createRRsetPatch d) = k := (hwfD (k, d) hmemD).symm
  have h2 : opKey (⟨e.name, e.typ, "DELETE", [], [], 0⟩ : PowerDNS.RRset) = k' :=
    (hwfE (k', e) hmemE).symm
  rw [h1] at hkeq
  rw [h2] at hkeq
  rw [hkeq] at hnone
  exact absurd (List.mem_map.mpr ⟨(k, d), hmemD, rfl⟩)
    (alistFind?_eq_none_iff.mp hnone)

theorem shouldUpdate_refl_like (m : Manager) (d x : PowerDNS.RRset)
    (hr : x.records = d.records) (ht : x.ttl = d.ttl) :
    m.shouldUpdateRRset d x = false := by
  unfold Manager.shouldUpdateRRset
  rw [hr, ht]
  simp

/-- Applying the full diff patch to the backend record sets yields a state
whose re-diff against the same desired map is empty: no creates, updates
or deletes remain. -/
theorem patch_fixpoint (m : Manager) (desired : List (String × PowerDNS.RRset))
    (Z0 : List PowerDNS.RRset)
    (hwf : ∀ p ∈ desired, p.1 = rrsetKey p.2.name p.2.typ)
    (hnd : (desired.map Prod.fst).Nodup) :
    m.diffDesired (buildKeyMap (applyPatchOps Z0
        ((m.diffDesired (buildKeyMap Z0) desired).1 ++
         (m.diffOrphans desired (buildKeyMap Z0)).1))) desired = ([], 0, 0) ∧
    m.diffOrphans desired (buildKeyMap (applyPatchOps Z0
        ((m.diffDesired (buildKeyMap Z0) desired).1 ++
         (m.diffOrphans desired (buildKeyMap Z0)).1))) = ([], 0) := by
  have hwfE : ∀ p ∈ buildKeyMap Z0, p.1 = rrsetKey p.2.name p.2.typ := by
    intro p hp
    obtain ⟨k, e⟩ := p
    exact buildKeyMap_wellformed hp
  have hndE : ((buildKeyMap Z0).map Prod.fst).Nodup := buildKeyMap_nodupKeys Z0
  have hndP : ((((m.diffDesired (buildKeyMap Z0) desired).1 ++
      (m.diffOrphans desired (buildKeyMap Z0)).1)).map opKey).Nodup :=
    patchKeys_nodup m desired (buildKeyMap Z0) hwf hnd hwfE hndE
  have hlook : ∀ k, findByKey (applyPatchOps Z0
      ((m.diffDesired (buildKeyMap Z0) desired).1 ++
       (m.diffOrphans desired (buildKeyMap Z0)).1)) k =
      match ((m.diffDesired (buildKeyMap Z0) desired).1 ++
             (m.diffOrphans desired (buildKeyMap Z0)).1).find?
          (fun op => opKey op == k) with
      | some op => if op.changeType == "DELETE" then none
                   else some { op with changeType := "" }
      | none => findByKey Z0 k :=
    fun k => findByKey_applyPatchOps _ Z0 k hndP
  constructor
  · apply diffDesired_zero
    intro p hp
    obtain ⟨k, d⟩ := p
    rw [alistFind?_buildKeyMap_eq_findByKey, hlook k]
    rcases hfp : ((m.diffDesired (buildKeyMap Z0) desired).1 ++
        (m.diffOrphans desired (buildKeyMap Z0)).1).find?
        (fun op => opKey op == k) with _ | op
    · have hall := List.find?_eq_none.mp hfp
      have hkd : opKey (m.createRRsetPatch d) = k := (hwf (k, d) hp).symm
      have hnn : alistFind? (buildKeyMap Z0) k ≠ none := by
        intro hn
        exact hall (m.createRRsetPatch d)
          (List.mem_append_left _ (diffDesired_emits m (buildKeyMap Z0) desired k d hp
            (Or.inl hn))) (by simp [hkd])
      rcases hsome : alistFind? (buildKeyMap Z0) k with _ | e
      · exact absurd hsome hnn
      · refine ⟨e, ?_, ?_⟩
        · rw [← alistFind?_buildKeyMap_eq_findByKey, hsome]
        · by_cases hm : m.isManaged e
          · by_cases hu : m.shouldUpdateRRset d e
            · exact absurd (hall (m.createRRsetPatch d)
                (List.mem_append_left _ (diffDesired_emits m (buildKeyMap Z0) desired
                  k d hp (Or.inr ⟨e, hsome, hm, hu⟩))) (by simp [hkd])) (fun hc => hc)
            · exact Or.inr (by simpa using hu)
          · exact Or.inl (by simpa using hm)
    · have hopmem := List.mem_of_find?_eq_some hfp
      have hopkey : opKey op = k := by simpa using List.find?_some hfp
      rcases List.mem_append.mp hopmem with h1 | h2
      · obtain ⟨k0, d', hmemD, hop, _⟩ := mem_diffDesired_patch_cond m _ desired op h1
        have hk0 : k0 = k := by
          rw [← hopkey, hop]
          exact hwf (k0, d') hmemD
        subst hk0
        have hdd : d' = d := nodup_key_unique hnd hmemD hp
        subst hdd
        rw [hop]
        refine ⟨{ m.createRRsetPatch d' with changeType := "" }, rfl, Or.inr ?_⟩
        exact shouldUpdate_refl_like m d' _ rfl rfl
      · obtain ⟨k0, e, hmemE, hop, _, hnone⟩ :=
          mem_diffOrphans_patch_cond m desired _ op h2
        have hk0 : k0 = k := by
          rw [← hopkey, hop]
          exact hwfE (k0, e) hmemE
        subst hk0
        exact absurd (alistFind?_isSome_of_mem hp) (by rw [hnone]; simp)
  · apply diffOrphans_zero
    intro p hp hm
    obtain ⟨k, e1⟩ := p
    have hfind : alistFind? (buildKeyMap (applyPatchOps Z0
        ((m.diffDesired (buildKeyMap Z0) desired).1 ++
         (m.diffOrphans desired (buildKeyMap Z0)).1))) k = some e1 :=
      alistFind?_eq_some_of_mem (buildKeyMap_nodupKeys _) hp
    rw [alistFind?_buildKeyMap_eq_findByKey, hlook k] at hfind
    rcases hfp : ((m.diffDesired (buildKeyMap Z0) desired).1 ++
        (m.diffOrphans desired (buildKeyMap Z0)).1).find?
        (fun op => opKey op == k) with _ | op
    · rw [hfp] at hfind
      have hmemEx : (k, e1) ∈ buildKeyMap Z0 :=
        mem_of_alistFind?_eq_some (by
          rw [alistFind?_buildKeyMap_eq_findByKey]
          exact hfind)
      have hkk : k = rrsetKey e1.name e1.typ := hwfE (k, e1) hmemEx
      by_cases hds : (alistFind? desired k).isSome
      · exact hds
      · have hnone : alistFind? desired k = none := by
          rcases hda : alistFind? desired k with _ | d
          · rfl
          · rw [hda] at hds
            simp at hds
        have hemit := diffOrphans_emits m desired (buildKeyMap Z0) k e1 hmemEx hm hnone
        have hall := List.find?_eq_none.mp hfp
        exact absurd (hall _ (List.mem_append_right _ hemit) (by
          simp only [beq_iff_eq]
          exact (show opKey (⟨e1.name, e1.typ, "DELETE", [], [], 0⟩ : PowerDNS.RRset) = k
            from hkk.symm))) (fun hc => hc)
    · rw [hfp] at hfind
      have hfind' : (if (op.changeType == "DELETE") = true then none
          else some { op with changeType := "" }) = some e1 := hfind
      by_cases hdel : (op.changeType == "DELETE") = true
      · rw [if_pos hdel] at hfind'
        exact Option.noConfusion hfind' 
      · rcases List.mem_append.mp (List.mem_of_find?_eq_some hfp) with h1 | h2
        · obtain ⟨k0, d', hmemD, hop, _⟩ := mem_diffDesired_patch_cond m _ desired op h1
          have hopkey : opKey op = k := by simpa using List.find?_some hfp
          have hk0 : k0 = k := by
            rw [← hopkey, hop]
            exact hwf (k0, d') hmemD
          subst hk0
          exact alistFind?_isSome_of_mem hmemD
        · obtain ⟨k0, e, _, hop, _, _⟩ := mem_diffOrphans_patch_cond m desired _ op h2
          rw [hop] at hdel
          simp at hdel

theorem Validate_nil_forall {cfg : Config} {ez : List (String × Config.ZoneState)}
    (h : Config.Validate cfg ez = []) :
    ∀ p ∈ cfg.zones, Config.validateZone p.1 p.2 ez = [] := by
  intro p hp
  rw [List.eq_nil_iff_forall_not_mem]
  intro v hv
  have hmem : v ∈ Config.Validate cfg ez := (mem_Validate_iff cfg ez v).mpr ⟨p, hp, hv⟩
  rw [h] at hmem
  simp at hmem

theorem NormalizeZone_rrsets (z : Config.Zone) : z.NormalizeZone.rrsets = z.rrsets := by
  unfold Config.Zone.NormalizeZone
  by_cases h : (z.kind == "") = true
  · rw [if_pos h]
  · rw [if_neg h]

theorem NormalizeRRsets_NormalizeZone (z : Config.Zone) :
    z.NormalizeZone.NormalizeRRsets = z.NormalizeRRsets := by
  unfold Config.Zone.NormalizeRRsets
  rw [NormalizeZone_rrsets]

theorem zoneStateOf_congr (m : Manager) {s1 s2 : MemState} {c : String}
    (h : alistFind? s1 c = alistFind? s2 c) :
    zoneStateOf m s1 c = zoneStateOf m s2 c := by
  unfold zoneStateOf
  rw [h]

theorem state_cond_true {st : Config.ZoneState}
    (himp : st.exists_ = true → st.isManaged = true) :
    (st.isManaged || !st.exists_) = true := by
  cases hx : st.exists_ with
  | false => simp [hx]
  | true => simp [himp hx]

theorem buildDesired_state_congr (m : Manager) (zid : String) (cfg : Config.Zone)
    {st1 st2 : Config.ZoneState}
    (h : (st1.isManaged || !st1.exists_) = (st2.isManaged || !st2.exists_)) :
    m.buildDesiredRRsets zid cfg st1 = m.buildDesiredRRsets zid cfg st2 := by
  unfold Manager.buildDesiredRRsets
  rw [h]

theorem validateRRsetsGo_nil_normalize (zn : String) :
    ∀ (inputs : List Config.RRsetInput) (i : Nat) (seen : List String),
      Config.validateRRsetsGo zn inputs i seen = [] →
      ∃ rs, Config.Zone.NormalizeRRsets.go inputs = .ok rs := by
  intro inputs
  induction inputs with
  | nil => exact fun i seen _ => ⟨[], rfl⟩
  | cons input rest ih =>
    intro i seen h
    unfold Config.validateRRsetsGo at h
    by_cases hns : (strUpper input.typ == "NS") = true
    · rw [if_pos hns] at h
      simp at h
    · rw [if_neg hns] at h
      by_cases hsoa : (strUpper input.typ == "SOA") = true
      · rw [if_pos hsoa] at h
        simp at h
      · rw [if_neg hsoa] at h
        simp only [List.append_eq_nil] at h
        obtain ⟨⟨⟨⟨-, -⟩, -⟩, hrec⟩, htail⟩ := h
        rcases hn : Config.normalizeRecords input.records with e | records
        · rw [hn] at hrec
          simp at hrec
        · obtain ⟨rs', hrs'⟩ := ih (i + 1) (Config.dupKey input.name input.typ :: seen) htail
          refine ⟨⟨input.name, strUpper input.typ, input.comment, records,
            input.ttl.getD 300⟩ :: rs', ?_⟩
          unfold Config.Zone.NormalizeRRsets.go
          simp only [hn, hrs']
          rfl

theorem validateZone_normalize_ok {zn : String} {z : Config.Zone}
    {ez : List (String × Config.ZoneState)}
    (h : Config.validateZone zn z ez = []) :
    ∃ rs, Config.Zone.NormalizeRRsets z.NormalizeZone = .ok rs := by
  unfold Config.validateZone at h
  simp only [List.append_eq_nil] at h
  obtain ⟨rs, hrs⟩ := validateRRsetsGo_nil_normalize zn z.rrsets 0 [] h.2
  refine ⟨rs, ?_⟩
  unfold Config.Zone.NormalizeRRsets
  rw [NormalizeZone_rrsets]
  exact hrs

theorem validateZone_managed {zn : String} {z : Config.Zone}
    {ez : List (String × Config.ZoneState)}
    (h : Config.validateZone zn z ez = [])
    (hex : (Config.lookupState ez (Config.CanonicalZoneName zn)).exists_ = true) :
    (Config.lookupState ez (Config.CanonicalZoneName zn)).isManaged = true := by
  unfold Config.validateZone at h
  simp only [List.append_eq_nil] at h
  have h2 := h.1.1.1.2
  by_contra hm
  rw [Bool.not_eq_true] at hm
  rw [hex, hm] at h2
  simp at h2

theorem fetchZones_cons_mem (m : Manager) (s : MemState) (zn : String) (zc : Config.Zone)
    (rest : List (String × Config.Zone)) (ez0 : List (String × Config.ZoneState))
    (zd0 : List (String × PowerDNS.Zone)) :
    m.fetchZones memClient s ((zn, zc) :: rest) ez0 zd0 =
      match alistFind? s (Config.CanonicalZoneName zn) with
      | some zone => m.fetchZones memClient s rest
          (alistUpsert ez0 (Config.CanonicalZoneName zn)
            ⟨true, zone.account == m.accountName⟩)
          (alistUpsert zd0 (Config.CanonicalZoneName zn) zone)
      | none => m.fetchZones memClient s rest
          (alistUpsert ez0 (Config.CanonicalZoneName zn) ⟨false, false⟩) zd0 := by
  have hg : memClient.getZone s (Config.CanonicalZoneName zn) =
      .ok (alistFind? s (Config.CanonicalZoneName zn)) := rfl
  conv_lhs => unfold Manager.fetchZones
  rw [hg]
  cases hx : alistFind? s (Config.CanonicalZoneName zn) with
  | none => rfl
  | some z => rfl

/-- The fetch phase on the in-memory backend: it always succeeds, and the
resulting state and zone-data maps agree with the backend on every
configured canonical zone name. -/
theorem fetchZones_memClient (m : Manager) (s : MemState) :
    ∀ (zones : List (String × Config.Zone)) (ez0 : List (String × Config.ZoneState))
      (zd0 : List (String × PowerDNS.Zone)),
      (∀ c, (alistFind? zd0 c).isSome = true → alistFind? zd0 c = alistFind? s c) →
      ∃ FE FD, m.fetchZones memClient s zones ez0 zd0 = .ok (FE, FD) ∧
        (∀ c, alistFind? FE c =
          if c ∈ zones.map (fun p => Config.CanonicalZoneName p.1) then
            some (zoneStateOf m s c) else alistFind? ez0 c) ∧
        (∀ c, alistFind? FD c =
          if c ∈ zones.map (fun p => Config.CanonicalZoneName p.1) then
            alistFind? s c else alistFind? zd0 c) := by
  intro zones
  induction zones with
  | nil =>
    intro ez0 zd0 hzd0
    exact ⟨ez0, zd0, rfl, fun c => by simp, fun c => by simp⟩
  | cons p rest ih =>
    intro ez0 zd0 hzd0
    obtain ⟨zn, zc⟩ := p
    rcases hz : alistFind? s (Config.CanonicalZoneName zn) with _ | z
    · obtain ⟨FE, FD, heq, hFE, hFD⟩ :=
        ih (alistUpsert ez0 (Config.CanonicalZoneName zn) ⟨false, false⟩) zd0 hzd0
      refine ⟨FE, FD, ?_, ?_, ?_⟩
      · rw [fetchZones_cons_mem, hz]
        exact heq
      · intro c
        rw [hFE c]
        by_cases hc : c = Config.CanonicalZoneName zn
        · subst hc
          have hzs : zoneStateOf m s (Config.CanonicalZoneName zn) = ⟨false, false⟩ := by
            unfold zoneStateOf
            rw [hz]
          by_cases hr : Config.CanonicalZoneName zn
              ∈ rest.map (fun p => Config.CanonicalZoneName p.1)
          · simp [hr, hzs]
          · simp [hr, hzs, alistFind?_upsert_self]
        · by_cases hr : c ∈ rest.map (fun p => Config.CanonicalZoneName p.1)
          · simp [hr, hc]
          · simp [hr, hc, alistFind?_upsert_other _ _ _ _ hc]
      · intro c
        rw [hFD c]
        by_cases hc : c = Config.CanonicalZoneName zn
        · subst hc
          by_cases hr : Config.CanonicalZoneName zn
              ∈ rest.map (fun p => Config.CanonicalZoneName p.1)
          · simp [hr]
          · rcases hd : alistFind? zd0 (Config.CanonicalZoneName zn) with _ | v
            · simp [hr, hz, hd]
            · have hvs := hzd0 (Config.CanonicalZoneName zn) (by rw [hd]; rfl)
              rw [hd, hz] at hvs
              exact absurd hvs (by simp)
        · by_cases hr : c ∈ rest.map (fun p => Config.CanonicalZoneName p.1)
          · simp [hr]
          · simp [hr, hc]
    · have hzd0' : ∀ c, (alistFind? (alistUpsert zd0 (Config.CanonicalZoneName zn) z) c).isSome
          = true → alistFind? (alistUpsert zd0 (Config.CanonicalZoneName zn) z) c
          = alistFind? s c := by
        intro c hcs
        by_cases hc : c = Config.CanonicalZoneName zn
        · subst hc
          rw [alistFind?_upsert_self, hz]
        · rw [alistFind?_upsert_other _ _ _ _ hc] at hcs ⊢
          exact hzd0 c hcs
      obtain ⟨FE, FD, heq, hFE, hFD⟩ :=
        ih (alistUpsert ez0 (Config.CanonicalZoneName zn)
            ⟨true, z.account == m.accountName⟩)
          (alistUpsert zd0 (Config.CanonicalZoneName zn) z) hzd0'
      refine ⟨FE, FD, ?_, ?_, ?_⟩
      · rw [fetchZones_cons_mem, hz]
        exact heq
      · intro c
        rw [hFE c]
        by_cases hc : c = Config.CanonicalZoneName zn
        · subst hc
          have hzs : zoneStateOf m s (Config.CanonicalZoneName zn)
              = ⟨true, z.account == m.accountName⟩ := by
            unfold zoneStateOf
            rw [hz]
          by_cases hr : Config.CanonicalZoneName zn
              ∈ rest.map (fun p => Config.CanonicalZoneName p.1)
          · simp [hr, hzs]
          · simp [hr, hzs, alistFind?_upsert_self]
        · by_cases hr : c ∈ rest.map (fun p => Config.CanonicalZoneName p.1)
          · simp [hr, hc]
          · simp [hr, hc, alistFind?_upsert_other _ _ _ _ hc]
      · intro c
        rw [hFD c]
        by_cases hc : c = Config.CanonicalZoneName zn
        · subst hc
          by_cases hr : Config.CanonicalZoneName zn
              ∈ rest.map (fun p => Config.CanonicalZoneName p.1)
          · simp [hr]
          · simp [hr, hz, alistFind?_upsert_self]
        · by_cases hr : c ∈ rest.map (fun p => Config.CanonicalZoneName p.1)
          · simp [hr]
          · simp [hr, hc, alistFind?_upsert_other _ _ _ _ hc]

theorem applyPatchOps_nil (rrsets : List PowerDNS.RRset) :
    applyPatchOps rrsets [] = rrsets := rfl

/-- `applyRRsets` against the in-memory backend, on a zone present in the
backend: it succeeds, touches no other zone, and leaves the zone's record
sets at a fixpoint of the diff against the desired map. -/
theorem applyRRsets_mem_post (m : Manager) (s : MemState) (c : String)
    (zc' : Config.Zone) (Z : PowerDNS.Zone) (st : Config.ZoneState)
    (result : ApplyResult) {D : List (String × PowerDNS.RRset)}
    (hD : m.buildDesiredRRsets c zc' st = .ok D)
    (hwfD : ∀ p ∈ D, p.1 = rrsetKey p.2.name p.2.typ)
    (hndD : (D.map Prod.fst).Nodup)
    (hfind : alistFind? s c = some Z) :
    ∃ result' s',
      m.applyRRsets memClient s c zc' Z st ⟨false, true⟩ result = (.ok (), result', s') ∧
      (∀ c', c' ≠ c → alistFind? s' c' = alistFind? s c') ∧
      ∃ rr1, alistFind? s' c = some { Z with rrsets := rr1 } ∧
        m.diffDesired (buildKeyMap rr1) D = ([], 0, 0) ∧
        m.diffOrphans D (buildKeyMap rr1) = ([], 0) := by
  have hfix := patch_fixpoint m D Z.rrsets hwfD hndD
  unfold Manager.applyRRsets
  simp only [hD]
  rcases hd1 : m.diffDesired (buildKeyMap Z.rrsets) D with ⟨p1, cr, up⟩
  rcases hd2 : m.diffOrphans D (buildKeyMap Z.rrsets) with ⟨p2, dl⟩
  simp only [hd1, hd2] at hfix ⊢
  by_cases hlen : ((p1 ++ p2).length == 0) = true
  · have hemp : p1 ++ p2 = [] := List.length_eq_zero.mp (by simpa using hlen)
    have hsp : m.sendPatch memClient s c (p1 ++ p2) ⟨false, true⟩ = .ok s := by
      unfold Manager.sendPatch
      rw [if_pos hlen]
    rw [hemp, applyPatchOps_nil] at hfix
    rw [hsp]
    refine ⟨_, s, rfl, fun c' _ => rfl, Z.rrsets, ?_, hfix.1, hfix.2⟩
    exact hfind
  · have hsp : m.sendPatch memClient s c (p1 ++ p2) ⟨false, true⟩ =
        .ok (alistUpsert s c { Z with rrsets := applyPatchOps Z.rrsets (p1 ++ p2) }) := by
      unfold Manager.sendPatch
      rw [if_neg hlen]
      have hred : memClient.patchZone s c ⟨p1 ++ p2⟩ =
          Except.ok (alistUpsert s c
            { Z with rrsets := applyPatchOps Z.rrsets (p1 ++ p2) }) := by
        show (match alistFind? s c with
              | none => Except.error (Err.msg "Not Found")
              | some zone => Except.ok (alistUpsert s c
                  { zone with rrsets := applyPatchOps zone.rrsets (p1 ++ p2) })) = _
        rw [hfind]
      simp only [Bool.not_true, Bool.false_and, Bool.false_eq_true, if_false, hred]
    rw [hsp]
    refine ⟨_, alistUpsert s c { Z with rrsets := applyPatchOps Z.rrsets (p1 ++ p2) },
      rfl, ?_, applyPatchOps Z.rrsets (p1 ++ p2), alistFind?_upsert_self s c _,
      hfix.1, hfix.2⟩
    intro c' hne
    exact alistFind?_upsert_other _ _ _ _ hne

/-- `applyZone` against the in-memory backend, under the facts validation
guarantees: it succeeds, touches no other zone, and leaves the zone
present, owned by the configured account, and at a diff fixpoint for the
exists-and-managed desired map. -/
theorem applyZone_mem_post (m : Manager) (s : MemState) (c : String) (zc : Config.Zone)
    (result : ApplyResult) {rs : List Config.RRset}
    (hok : Config.Zone.NormalizeRRsets zc.NormalizeZone = .ok rs)
    (himp : (zoneStateOf m s c).exists_ = true → (zoneStateOf m s c).isManaged = true) :
    ∃ result' s',
      m.applyZone memClient s c zc.NormalizeZone (zoneStateOf m s c)
        (alistFind? s c) ⟨false, true⟩ result = (.ok (), result', s') ∧
      (∀ c', c' ≠ c → alistFind? s' c' = alistFind? s c') ∧
      ∃ Z1, alistFind? s' c = some Z1 ∧ (Z1.account == m.accountName) = true ∧
        ∀ D, m.buildDesiredRRsets c zc.NormalizeZone ⟨true, true⟩ = .ok D →
          m.diffDesired (buildKeyMap Z1.rrsets) D = ([], 0, 0) ∧
          m.diffOrphans D (buildKeyMap Z1.rrsets) = ([], 0) := by
  obtain ⟨D, hD⟩ : ∃ D, m.buildDesiredRRsets c zc.NormalizeZone ⟨true, true⟩ = .ok D :=
    ⟨_, buildDesiredRRsets_eq m c zc.NormalizeZone ⟨true, true⟩ hok⟩
  have hwfD : ∀ p ∈ D, p.1 = rrsetKey p.2.name p.2.typ := by
    intro p hp
    obtain ⟨k, d⟩ := p
    exact desired_wellformed hD hp
  have hndD : (D.map Prod.fst).Nodup := desired_nodupKeys hD
  have hDst : m.buildDesiredRRsets c zc.NormalizeZone (zoneStateOf m s c) = .ok D := by
    rw [buildDesired_state_congr m c zc.NormalizeZone
      (show ((zoneStateOf m s c).isManaged || !(zoneStateOf m s c).exists_) =
        ((⟨true, true⟩ : Config.ZoneState).isManaged ||
         !(⟨true, true⟩ : Config.ZoneState).exists_) by rw [state_cond_true himp]; rfl)]
    exact hD
  rcases hzs : alistFind? s c with _ | Zorig
  · -- the zone does not exist yet: it is created first
    have hst : zoneStateOf m s c = ⟨false, false⟩ := by
      unfold zoneStateOf
      rw [hzs]
    rw [hst] at hDst
    rw [hst]
    have hstep : m.applyZone memClient s c zc.NormalizeZone ⟨false, false⟩ none
        ⟨false, true⟩ result =
        m.applyRRsets memClient
          (alistUpsert s c
            { name := c, kind := zc.NormalizeZone.kind, account := m.accountName,
              nameservers := m.normalizeNameservers zc.NormalizeZone.nameservers c,
              rrsets := [] })
          c zc.NormalizeZone
          { name := c, kind := zc.NormalizeZone.kind, account := m.accountName,
            nameservers := m.normalizeNameservers zc.NormalizeZone.nameservers c,
            rrsets := [] }
          ⟨false, false⟩ ⟨false, true⟩
          { result with zonesCreated := result.zonesCreated + 1 } := rfl
    rw [hstep]
    obtain ⟨result', s', heq, hother, rr1, hfind', hfx1, hfx2⟩ :=
      applyRRsets_mem_post m
        (alistUpsert s c
          { name := c, kind := zc.NormalizeZone.kind, account := m.accountName,
            nameservers := m.normalizeNameservers zc.NormalizeZone.nameservers c,
            rrsets := [] })
        c zc.NormalizeZone _ ⟨false, false⟩
        { result with zonesCreated := result.zonesCreated + 1 }
        hDst hwfD hndD (alistFind?_upsert_self s c _)
    refine ⟨result', s', heq, ?_, ?_⟩
    · intro c' hne
      rw [hother c' hne]
      exact alistFind?_upsert_other _ _ _ _ hne
    · refine ⟨_, hfind', by simp, ?_⟩
      intro D' hD'
      have hDD : D = D' := by
        have h2 := hD.symm.trans hD'
        injection h2
      subst hDD
      exact ⟨hfx1, hfx2⟩
  · -- the zone exists and is managed
    have hst : zoneStateOf m s c = ⟨true, Zorig.account == m.accountName⟩ := by
      unfold zoneStateOf
      rw [hzs]
    rw [hst] at himp
    have hman : (Zorig.account == m.accountName) = true := himp rfl
    rw [hman] at hst
    rw [hst] at hDst
    rw [hst]
    have hstep : m.applyZone memClient s c zc.NormalizeZone ⟨true, true⟩ (some Zorig)
        ⟨false, true⟩ result =
        m.applyRRsets memClient s c zc.NormalizeZone Zorig ⟨true, true⟩
          ⟨false, true⟩ result := rfl
    rw [hstep]
    obtain ⟨result', s', heq, hother, rr1, hfind', hfx1, hfx2⟩ :=
      applyRRsets_mem_post m s c zc.NormalizeZone Zorig ⟨true, true⟩ result
        hDst hwfD hndD hzs
    refine ⟨result', s', heq, hother, ?_⟩
    refine ⟨_, hfind', hman, ?_⟩
    intro D' hD'
    have hDD : D = D' := by
      have h2 := hD.symm.trans hD'
      injection h2
    subst hDD
    exact ⟨hfx1, hfx2⟩

/-- The run-1 zone loop on the in-memory backend: with pairwise-distinct
canonical zone names and the facts validation guarantees, it leaves every
configured zone present, owned, and at a diff fixpoint, and touches no
other zone. -/
theorem applyLoop_mem_post (m : Manager) (ez : List (String × Config.ZoneState))
    (zd : List (String × PowerDNS.Zone)) :
    ∀ (zones : List (String × Config.Zone)) (s : MemState) (result : ApplyResult),
      (zones.map fun p => Config.CanonicalZoneName p.1).Nodup →
      (∀ p ∈ zones, ∃ rs, Config.Zone.NormalizeRRsets (p.2).NormalizeZone = .ok rs) →
      (∀ p ∈ zones, Config.lookupState ez (Config.CanonicalZoneName p.1)
        = zoneStateOf m s (Config.CanonicalZoneName p.1)) →
      (∀ p ∈ zones, alistFind? zd (Config.CanonicalZoneName p.1)
        = alistFind? s (Config.CanonicalZoneName p.1)) →
      (∀ p ∈ zones, (zoneStateOf m s (Config.CanonicalZoneName p.1)).exists_ = true →
        (zoneStateOf m s (Config.CanonicalZoneName p.1)).isManaged = true) →
      ∃ result' s',
        m.applyLoop memClient ez zd ⟨false, true⟩ zones s result = (result', s') ∧
        (∀ c', c' ∉ zones.map (fun p => Config.CanonicalZoneName p.1) →
          alistFind? s' c' = alistFind? s c') ∧
        ∀ p ∈ zones, ∃ Z1,
          alistFind? s' (Config.CanonicalZoneName p.1) = some Z1 ∧
          (Z1.account == m.accountName) = true ∧
          ∀ D, m.buildDesiredRRsets (Config.CanonicalZoneName p.1) (p.2).NormalizeZone
              ⟨true, true⟩ = .ok D →
            m.diffDesired (buildKeyMap Z1.rrsets) D = ([], 0, 0) ∧
            m.diffOrphans D (buildKeyMap Z1.rrsets) = ([], 0) := by
  intro zones
  induction zones with
  | nil =>
    intro s result _ _ _ _ _
    exact ⟨result, s, rfl, fun c' _ => rfl, fun p hp => absurd hp (by simp)⟩
  | cons q rest ih =>
    intro s result hnd hpre hez hzd hman
    obtain ⟨zn, zc⟩ := q
    obtain ⟨rs, hrs⟩ := hpre (zn, zc) (List.mem_cons_self ..)
    obtain ⟨result1, s1, heq1, hother1, Z1, hfind1, hacct1, hfix1⟩ :=
      applyZone_mem_post m s (Config.CanonicalZoneName zn) zc result hrs
        (hman (zn, zc) (List.mem_cons_self ..))
    have hstep : m.applyLoop memClient ez zd ⟨false, true⟩ ((zn, zc) :: rest) s result =
        m.applyLoop memClient ez zd ⟨false, true⟩ rest s1 result1 := by
      conv_lhs => unfold Manager.applyLoop
      rw [hez (zn, zc) (List.mem_cons_self ..), hzd (zn, zc) (List.mem_cons_self ..), heq1]
    rw [hstep]
    have hcnotin : Config.CanonicalZoneName zn
        ∉ rest.map (fun p => Config.CanonicalZoneName p.1) := by
      simp only [List.map_cons, List.nodup_cons] at hnd
      exact hnd.1
    have hndr : (rest.map fun p => Config.CanonicalZoneName p.1).Nodup := by
      simp only [List.map_cons, List.nodup_cons] at hnd
      exact hnd.2
    have hagree : ∀ p ∈ rest, alistFind? s1 (Config.CanonicalZoneName p.1)
        = alistFind? s (Config.CanonicalZoneName p.1) := by
      intro p hp
      apply hother1
      intro hcc
      exact hcnotin (hcc ▸ List.mem_map.mpr ⟨p, hp, rfl⟩)
    obtain ⟨result2, s2, heq2, hother2, hpost2⟩ :=
      ih s1 result1 hndr
        (fun p hp => hpre p (List.mem_cons_of_mem _ hp))
        (fun p hp => (hez p (List.mem_cons_of_mem _ hp)).trans
          (zoneStateOf_congr m (hagree p hp)).symm)
        (fun p hp => (hzd p (List.mem_cons_of_mem _ hp)).trans (hagree p hp).symm)
        (fun p hp => by
          rw [zoneStateOf_congr m (hagree p hp)]
          exact hman p (List.mem_cons_of_mem _ hp))
    refine ⟨result2, s2, heq2, ?_, ?_⟩
    · intro c' hc'
      simp only [List.map_cons, List.mem_cons, not_or] at hc'
      rw [hother2 c' hc'.2]
      exact hother1 c' hc'.1
    · intro p hp
      rcases List.mem_cons.mp hp with hph | hpt
      · subst hph
        exact ⟨Z1, (hother2 _ hcnotin).trans hfind1, hacct1, hfix1⟩
      · exact hpost2 p hpt

/-- The zone loop on the in-memory backend when every configured zone is
already at a diff fixpoint: nothing is counted and the state is
unchanged. -/
theorem applyLoop_mem_fix (m : Manager) (ez : List (String × Config.ZoneState))
    (zd : List (String × PowerDNS.Zone)) :
    ∀ (zones : List (String × Config.Zone)) (s : MemState) (result : ApplyResult),
      (∀ p ∈ zones, ∃ Z1,
        alistFind? s (Config.CanonicalZoneName p.1) = some Z1 ∧
        Config.lookupState ez (Config.CanonicalZoneName p.1) = ⟨true, true⟩ ∧
        alistFind? zd (Config.CanonicalZoneName p.1) = some Z1 ∧
        ∃ D, m.buildDesiredRRsets (Config.CanonicalZoneName p.1) (p.2).NormalizeZone
            ⟨true, true⟩ = .ok D ∧
          m.diffDesired (buildKeyMap Z1.rrsets) D = ([], 0, 0) ∧
          m.diffOrphans D (buildKeyMap Z1.rrsets) = ([], 0)) →
      m.applyLoop memClient ez zd ⟨false, true⟩ zones s result = (result, s) := by
  intro zones
  induction zones with
  | nil => intro s result _; rfl
  | cons q rest ih =>
    intro s result hfix
    obtain ⟨zn, zc⟩ := q
    obtain ⟨Z1, hfind, hlk, hzde, D, hD, hdd, hdo⟩ := hfix (zn, zc) (List.mem_cons_self ..)
    have hsp : m.sendPatch memClient s (Config.CanonicalZoneName zn)
        ([] : List PowerDNS.RRset) ⟨false, true⟩ = .ok s := rfl
    have hzone : m.applyZone memClient s (Config.CanonicalZoneName zn) zc.NormalizeZone
        (Config.lookupState ez (Config.CanonicalZoneName zn))
        (alistFind? zd (Config.CanonicalZoneName zn)) ⟨false, true⟩ result
        = (.ok (), result, s) := by
      rw [hlk, hzde]
      have hstep : m.applyZone memClient s (Config.CanonicalZoneName zn) zc.NormalizeZone
          ⟨true, true⟩ (some Z1) ⟨false, true⟩ result =
          m.applyRRsets memClient s (Config.CanonicalZoneName zn) zc.NormalizeZone Z1
            ⟨true, true⟩ ⟨false, true⟩ result := rfl
      rw [hstep]
      unfold Manager.applyRRsets
      simp only [hD, hdd, hdo, List.append_nil, hsp]
      simp
    conv_lhs => unfold Manager.applyLoop
    rw [hzone]
    exact ih s result (fun p hp => hfix p (List.mem_cons_of_mem _ hp))

theorem validateZone_state_swap {zn : String} {z : Config.Zone}
    {ez ez2 : List (String × Config.ZoneState)}
    (h : Config.validateZone zn z ez = [])
    (h2 : Config.lookupState ez2 (Config.CanonicalZoneName zn) = ⟨true, true⟩) :
    Config.validateZone zn z ez2 = [] := by
  unfold Config.validateZone at h ⊢
  simp only [List.append_eq_nil] at h ⊢
  rw [h2]
  exact ⟨⟨⟨⟨by simp, by simp⟩, h.1.1.2⟩, h.1.2⟩, h.2⟩

theorem Validate_nil_of_forall {cfg : Config} {ez : List (String × Config.ZoneState)}
    (h : ∀ p ∈ cfg.zones, Config.validateZone p.1 p.2 ez = []) :
    Config.Validate cfg ez = [] := by
  rw [List.eq_nil_iff_forall_not_mem]
  intro v hv
  obtain ⟨p, hp, hvp⟩ := (mem_Validate_iff cfg ez v).mp hv
  rw [h p hp] at hvp
  simp at hvp

/-- C2, amended: on the in-memory backend, if the configured zone names
canonicalize to pairwise-distinct zones, then after one successful real
auto-confirmed `Apply` run a second run succeeds, leaves the backend
unchanged, and reports zero zones created and zero record sets created,
updated or deleted (and no per-zone errors). -/
theorem apply_idempotent (m : Manager) (cfg : Config) (s0 s1 : MemState)
    (r1 : ApplyResult)
    (hnd : (cfg.zones.map fun p => Config.CanonicalZoneName p.1).Nodup)
    (h1 : m.Apply memClient s0 cfg ⟨false, true⟩ = (.ok r1, s1)) :
    ∃ r2, m.Apply memClient s1 cfg ⟨false, true⟩ = (.ok r2, s1) ∧
      countersOf r2 = (0, 0, 0, 0) ∧ r2.errors = [] := by
  obtain ⟨FE, FD, hfeq, hFE, hFD⟩ := fetchZones_memClient m s0 cfg.zones [] []
    (fun c h => by rw [alistFind?_nil] at h; simp at h)
  rcases hval1 : Config.Validate cfg FE with _ | ⟨v, vs⟩
  · -- run-1 validation passed
    have hVz := Validate_nil_forall hval1
    have hpre : ∀ p ∈ cfg.zones,
        ∃ rs, Config.Zone.NormalizeRRsets (p.2).NormalizeZone = .ok rs :=
      fun p hp => validateZone_normalize_ok (hVz p hp)
    have hezfact : ∀ p ∈ cfg.zones,
        Config.lookupState FE (Config.CanonicalZoneName p.1)
          = zoneStateOf m s0 (Config.CanonicalZoneName p.1) := by
      intro p hp
      unfold Config.lookupState
      rw [hFE (Config.CanonicalZoneName p.1), if_pos (List.mem_map.mpr ⟨p, hp, rfl⟩)]
      rfl
    have hzdfact : ∀ p ∈ cfg.zones,
        alistFind? FD (Config.CanonicalZoneName p.1)
          = alistFind? s0 (Config.CanonicalZoneName p.1) := by
      intro p hp
      rw [hFD (Config.CanonicalZoneName p.1), if_pos (List.mem_map.mpr ⟨p, hp, rfl⟩)]
    have hmanfact : ∀ p ∈ cfg.zones,
        (zoneStateOf m s0 (Config.CanonicalZoneName p.1)).exists_ = true →
        (zoneStateOf m s0 (Config.CanonicalZoneName p.1)).isManaged = true := by
      intro p hp hex
      have h := validateZone_managed (hVz p hp) (by rw [hezfact p hp]; exact hex)
      rw [hezfact p hp] at h
      exact h
    obtain ⟨res1, st1, hloopeq, hother, hpost⟩ :=
      applyLoop_mem_post m FE FD cfg.zones s0 ⟨[], 0, 0, 0, 0⟩
        hnd hpre hezfact hzdfact hmanfact
    have happly1 : m.Apply memClient s0 cfg ⟨false, true⟩ = (.ok res1, st1) := by
      unfold Manager.Apply
      rw [hfeq]
      simp only [hval1, hloopeq]
    rw [happly1] at h1
    have hs1 : st1 = s1 := congrArg Prod.snd h1
    subst hs1
    -- second run: fetch, validate, loop
    obtain ⟨FE2, FD2, hfeq2, hFE2, hFD2⟩ := fetchZones_memClient m st1 cfg.zones [] []
      (fun c h => by rw [alistFind?_nil] at h; simp at h)
    have hlk2 : ∀ p ∈ cfg.zones,
        Config.lookupState FE2 (Config.CanonicalZoneName p.1) = ⟨true, true⟩ := by
      intro p hp
      obtain ⟨Z1, hfind, hacct, hfx⟩ := hpost p hp
      unfold Config.lookupState
      rw [hFE2 (Config.CanonicalZoneName p.1), if_pos (List.mem_map.mpr ⟨p, hp, rfl⟩)]
      show zoneStateOf m st1 (Config.CanonicalZoneName p.1) = _
      unfold zoneStateOf
      rw [hfind]
      show (⟨true, Z1.account == m.accountName⟩ : Config.ZoneState) = ⟨true, true⟩
      rw [hacct]
    have hval2 : Config.Validate cfg FE2 = [] :=
      Validate_nil_of_forall (fun p hp => validateZone_state_swap (hVz p hp) (hlk2 p hp))
    have hfix2 : ∀ p ∈ cfg.zones, ∃ Z1,
        alistFind? st1 (Config.CanonicalZoneName p.1) = some Z1 ∧
        Config.lookupState FE2 (Config.CanonicalZoneName p.1) = ⟨true, true⟩ ∧
        alistFind? FD2 (Config.CanonicalZoneName p.1) = some Z1 ∧
        ∃ D, m.buildDesiredRRsets (Config.CanonicalZoneName p.1) (p.2).NormalizeZone
            ⟨true, true⟩ = .ok D ∧
          m.diffDesired (buildKeyMap Z1.rrsets) D = ([], 0, 0) ∧
          m.diffOrphans D (buildKeyMap Z1.rrsets) = ([], 0) := by
      intro p hp
      obtain ⟨Z1, hfind, hacct, hfx⟩ := hpost p hp
      refine ⟨Z1, hfind, hlk2 p hp, ?_, ?_⟩
      · rw [hFD2 (Config.CanonicalZoneName p.1), if_pos (List.mem_map.mpr ⟨p, hp, rfl⟩)]
        exact hfind
      · obtain ⟨rs, hrs⟩ := hpre p hp
        exact ⟨_, buildDesiredRRsets_eq m _ _ ⟨true, true⟩ hrs,
          hfx _ (buildDesiredRRsets_eq m _ _ ⟨true, true⟩ hrs)⟩
    have hloop2 := applyLoop_mem_fix m FE2 FD2 cfg.zones st1 ⟨[], 0, 0, 0, 0⟩ hfix2
    refine ⟨⟨[], 0, 0, 0, 0⟩, ?_, rfl, rfl⟩
    unfold Manager.Apply
    rw [hfeq2]
    simp only [hval2, hloop2]
  · -- run-1 validation failed: contradicts run 1 succeeding
    have happly1 : m.Apply memClient s0 cfg ⟨false, true⟩ =
        (.error (.validationFailed (v :: vs)), s0) := by
      unfold Manager.Apply
      rw [hfeq]
      simp only [hval1]
    rw [happly1] at h1
    have hcon := congrArg Prod.fst h1
    simp at hcon

/-- C2 counterexample: with two configuration entries whose names
canonicalize to the same zone, the second of two back-to-back real
auto-confirmed `Apply` runs (the second fetching exactly the state the
first left) still reports one record set created and one deleted: the
second-run result is not all-zero. -/
theorem apply_idempotence_cex :
    ∃ r2, d2Run2.1 = .ok r2 ∧ countersOf r2 ≠ (0, 0, 0, 0) :=
  ⟨⟨[], 0, 1, 0, 1⟩, by decide, by decide⟩

/-- Witness for the amended C2 at a concrete one-zone configuration: the
hypotheses hold and the second run is a no-op with all-zero counters. -/
theorem apply_idempotent_witness :
    ((w2Cfg.zones.map fun p => Config.CanonicalZoneName p.1).Nodup ∧
      wMgr.Apply memClient ([] : MemState) w2Cfg ⟨false, true⟩ =
        (.ok ⟨[], 1, 2, 0, 0⟩, w2S1)) ∧
    ∃ r2, wMgr.Apply memClient w2S1 w2Cfg ⟨false, true⟩ = (.ok r2, w2S1) ∧
      countersOf r2 = (0, 0, 0, 0) ∧ r2.errors = [] :=
  ⟨⟨by decide, by decide⟩,
    apply_idempotent wMgr w2Cfg [] w2S1 ⟨[], 1, 2, 0, 0⟩ (by decide) (by decide)⟩

end ZoneManager
